import Mathlib

/-!
Verification of the Data-Quality Rule Execution and Duplicate-Detection Engine
of `src/modules/dq.py` (Enterprise Data Management Platform).

The dataset is loaded with `dtype=str, keep_default_na=False`, so every cell is
a Python string; we model a dataset as ordered column names plus ordered rows of
string cells, and row ids as 0-based positions (pandas default RangeIndex).
Python floats are modelled as exact rationals; `round(x, 2)` is modelled as
round-half-to-even at two decimals on rationals.
-/

namespace DQ

/-! ## Python string primitives (ASCII behaviour, which is what the data uses) -/

/-- Python whitespace (the characters of the re module class backslash-s). -/
def isPyWs (c : Char) : Bool :=
  c == ' ' || c == '\t' || c == '\n' || c == '\x0b' || c == '\x0c' || c == '\r'

/-- Python `str.strip()`: drop leading and trailing whitespace. -/
def pyStrip (s : String) : String :=
  ⟨((s.data.dropWhile isPyWs).reverse.dropWhile isPyWs).reverse⟩

/-- Python `str.lower()` (ASCII letters). -/
def pyLower (s : String) : String := ⟨s.data.map Char.toLower⟩

/-- Python `str.upper()` (ASCII letters). -/
def pyUpper (s : String) : String := ⟨s.data.map Char.toUpper⟩

/-- Normalisation used throughout dq.py: `str(x).strip().lower()`. -/
def normCell (s : String) : String := pyLower (pyStrip s)

/-! ## Null-sentinel vocabulary

`_NULL_SENTINELS` as written (identically) at dq.py lines 276, 297, 314, 403,
476 and 734. -/

def NULL_SENTINELS : List String :=
  ["", "nan", "none", "null", "na", "n/a", "n.a.", "nil", "missing", "#n/a"]

/-- Membership test applied to an already stripped+lowercased value
(`s.str.lower().isin(_NULL_SENTINELS)` receives stripped input at every site). -/
def isNullSentinel (t : String) : Bool := NULL_SENTINELS.contains t

/-- Embeds `_is_empty_for_validity` (dq.py 305-315): the input series is already
stripped at every call site, so this lowercases and tests sentinel membership. -/
def isEmptyForValidity (s : String) : Bool := isNullSentinel (pyLower s)

/-! ## Python rounding

`round(x, 2)` with bankers rounding (round half to even), on exact rationals. -/

/-- Floor of a rational as an integer (num floor-divided by den); an executable
form of the mathematical floor that the kernel can evaluate. -/
def qfloor (x : ℚ) : ℤ := x.num.fdiv (x.den : ℤ)

/-- Round a rational to the nearest integer, ties to even. -/
def roundHalfEven (x : ℚ) : ℤ :=
  let n := qfloor x
  let f := x - n
  if f < 1/2 then n
  else if 1/2 < f then n + 1
  else if n % 2 = 0 then n else n + 1

/-- Python `round(x, 2)` on our rational model. -/
def round2 (x : ℚ) : ℚ := (roundHalfEven (x * 100) : ℚ) / 100

/-- Python builtin `max` on two rationals (an executable form of `max` that the
kernel can evaluate on concrete inputs). -/
def qmax (a b : ℚ) : ℚ := if a < b then b else a

/-! ## Data model -/

/-- A loaded dataset: ordered column names, ordered rows of string cells. -/
structure Df where
  cols : List String
  rows : List (List String)
deriving Repr, DecidableEq

/-- Number of rows, `len(df)`. -/
def Df.nRows (df : Df) : ℕ := df.rows.length

/-- Position of a column name. -/
def Df.colIdx (df : Df) (c : String) : Option ℕ := df.cols.findIdx? (fun x => x = c)

/-- Cell of one row for a column; a missing column yields "" (this mirrors
`row.get(col, "")`; the theorems that depend on a column being present carry
that as a hypothesis). -/
def Df.cellAt (df : Df) (r : List String) (c : String) : String :=
  match df.colIdx c with
  | some j => r.getD j ""
  | none => ""

/-- Cell at row index `i` and column `c`. -/
def Df.cell (df : Df) (i : ℕ) (c : String) : String := df.cellAt (df.rows.getD i []) c

/-- One issue record (annexure row), as built by `_annex_row` (dq.py 1056-1068).
`rowNumber` is the Excel-style row number `idx + 2`. -/
structure IssueRecord where
  rowNumber : ℕ
  columnName : String
  ruleApplied : String
  issueType : String
  originalValue : String
  expectedValue : String
  dimension : String
deriving Repr, DecidableEq

/-! ## Execution audit log

`_RULE_EXEC_LOG` is a run-scoped global list in dq.py; we thread it explicitly
as a value (state-passing), which is the documented run-scoped semantics:
cleared by the caller at the start of each run. -/

/-- One audit-log record as appended by `_log_rule` (dq.py 993-1044). -/
structure AuditEntry where
  dimension : String
  column : String
  rule : String
  evaluated : ℕ
  failed : ℕ
  passed : ℤ
  scorePct : Option ℚ
  severity : String
  issueType : String
deriving Repr, DecidableEq

/-- Severity ladder of `_log_rule`; a missing score falls through to "Pass". -/
def severityOf (sp : Option ℚ) : String :=
  match sp with
  | some s =>
      if s < 50 then "Critical"
      else if s < 70 then "High"
      else if s < 85 then "Medium"
      else if s < 95 then "Low"
      else "Pass"
  | none => "Pass"

/-- Canonical Issue_Type per dimension (`_ISSUE_TYPE_MAP`), defaulting to the
dimension name itself. -/
def issueTypeOf (dimension : String) : String :=
  if dimension = "Completeness" then "Missing Values"
  else if dimension = "Validity" then "Invalid Format"
  else if dimension = "Uniqueness" then "Duplicate Records"
  else if dimension = "Standardization" then "Non-Standard Values"
  else dimension

/-- Embeds `_log_rule` (dq.py 993-1044): build the audit record appended to the
execution log. -/
def logRule (dimension column rule : String) (evaluated failed : ℕ) : AuditEntry :=
  let sp : Option ℚ :=
    if 0 < evaluated then
      some (round2 (((evaluated : ℚ) - (failed : ℚ)) / (evaluated : ℚ) * 100))
    else none
  { dimension := dimension, column := column, rule := rule,
    evaluated := evaluated, failed := failed,
    passed := (evaluated : ℤ) - (failed : ℤ),
    scorePct := sp, severity := severityOf sp,
    issueType := issueTypeOf dimension }

/-! ## Scoring engine -/

/-- Audit entries of one dimension (the filter in `_score_from_log`). -/
def dimEntries (log : List AuditEntry) (dimension : String) : List AuditEntry :=
  log.filter (fun e => e.dimension = dimension)

/-- Sum of Evaluated over the audit entries of one dimension. -/
def dimEvaluated (log : List AuditEntry) (dimension : String) : ℕ :=
  ((dimEntries log dimension).map (fun e => e.evaluated)).sum

/-- Sum of Failed over the audit entries of one dimension. -/
def dimFailed (log : List AuditEntry) (dimension : String) : ℕ :=
  ((dimEntries log dimension).map (fun e => e.failed)).sum

/-- Embeds `_score_from_log` (dq.py 1676-1693): derive a dimension score from
the execution log; `none` means "Not Evaluated". -/
def scoreFromLog (log : List AuditEntry) (dimension : String) : Option ℚ :=
  if dimEntries log dimension = [] then none
  else if dimEvaluated log dimension = 0 then none
  else some (round2 (qmax 0
      (((dimEvaluated log dimension : ℚ) - (dimFailed log dimension : ℚ)) /
        (dimEvaluated log dimension : ℚ) * 100)))

/-- Embeds `compute_completeness_score` (dq.py 1696-1731).  `columnRuleMap` only
enters through its length, so it is passed as `Option ℕ` (the number of
configured column-rule entries). -/
def computeCompletenessScore (nRows : ℕ) (annexure : List IssueRecord)
    (columns : List String) (selectedRules : List String)
    (columnRuleMap : Option ℕ) (log : List AuditEntry) : ℚ :=
  if nRows = 0 then 0
  else
    match scoreFromLog log "Completeness" with
    | some s => s
    | none =>
        let failures := (annexure.filter (fun r => r.dimension = "Completeness")).length
        let nPairs :=
          match columnRuleMap with
          | some k => k
          | none =>
              let active := selectedRules.filter (fun r => r ≠ "Mandatory Column")
              let base := if active = [] then 0 else active.length * columns.length
              base + (if selectedRules.contains "Mandatory Column" ∧ columns ≠ []
                      then columns.length else 0)
        let total := nPairs * nRows
        if total = 0 then 0
        else round2 (qmax 0 (((total : ℚ) - (failures : ℚ)) / (total : ℚ) * 100))

/-- Embeds `compute_uniqueness_score` (dq.py 1759-1781).  The DataFrame enters
only through `len(df)` (`total`); `dupRecords` is the Row_Number column of the
duplicate-records result (`none` models `dup_records is None`).  Returns the
score together with the updated execution log. -/
def computeUniquenessScore (total : ℕ) (dupRecords : Option (List ℕ))
    (log : List AuditEntry) : ℚ × List AuditEntry :=
  if total = 0 then (0, log)
  else
    match dupRecords with
    | none => (100, log ++ [logRule "Uniqueness" "ALL" "Exact/Fuzzy Duplicate Check" total 0])
    | some rs =>
        if rs = [] then
          (100, log ++ [logRule "Uniqueness" "ALL" "Exact/Fuzzy Duplicate Check" total 0])
        else
          -- nunique() is the number of distinct Row_Number values, then capped
          let dupCount := min rs.dedup.length total
          (round2 (qmax 0 (((total : ℚ) - (dupCount : ℚ)) / (total : ℚ) * 100)),
           log ++ [logRule "Uniqueness" "ALL" "Exact/Fuzzy Duplicate Check" total dupCount])

/-! ## Regular-expression engine

Python `re` as used by dq.py: pattern compilation can fail (`re.error`), and
matching is either anchored-at-the-start (`str.match`) or whole-string
(`str.fullmatch`).  We embed the fragment of the syntax appearing in the
module: literals, escapes, character classes with ranges, the dot,
alternation, groups, `*`, `+`, `?`, counted repetition, and the `^`/`$`
anchors.  The start anchor appears in dq.py only at the very beginning of a
pattern, where it is vacuous, and is parsed as the empty regex; the end anchor
is modelled exactly.  Matching is by Brzozowski derivatives. -/

/-- Regular-expression syntax; `eos` is the end anchor (the dollar sign),
which matches the empty string only at the end of the input. -/
inductive RE
  | emp
  | eps
  | chr (c : Char)
  | dot
  | cls (neg : Bool) (single : List Char) (ranges : List (Char × Char))
  | alt (a b : RE)
  | cat (a b : RE)
  | star (a : RE)
  | eos
deriving Repr, DecidableEq

/-- Character-class membership. -/
def clsMatch (neg : Bool) (single : List Char) (ranges : List (Char × Char)) (c : Char) : Bool :=
  let hit := single.contains c || ranges.any (fun r => decide (r.1 ≤ c) && decide (c ≤ r.2))
  if neg then !hit else hit

/-- Does the regex accept the empty string at a non-final position (the end
anchor does not). -/
def nullableMid : RE → Bool
  | .emp => false
  | .eps => true
  | .chr _ => false
  | .dot => false
  | .cls _ _ _ => false
  | .alt a b => nullableMid a || nullableMid b
  | .cat a b => nullableMid a && nullableMid b
  | .star _ => true
  | .eos => false

/-- Does the regex accept the empty string at the end of the input (the end
anchor does). -/
def nullableEnd : RE → Bool
  | .emp => false
  | .eps => true
  | .chr _ => false
  | .dot => false
  | .cls _ _ _ => false
  | .alt a b => nullableEnd a || nullableEnd b
  | .cat a b => nullableEnd a && nullableEnd b
  | .star _ => true
  | .eos => true

/-- Brzozowski derivative with respect to one character (taken at a non-final
position, so concatenation skips over a left part via `nullableMid`). -/
def deriv : RE → Char → RE
  | .emp, _ => .emp
  | .eps, _ => .emp
  | .chr c, x => if c = x then .eps else .emp
  | .dot, _ => .eps
  | .cls n s r, x => if clsMatch n s r x then .eps else .emp
  | .alt a b, x => .alt (deriv a x) (deriv b x)
  | .cat a b, x =>
      if nullableMid a then .alt (.cat (deriv a x) b) (deriv b x) else .cat (deriv a x) b
  | .star a, x => .cat (deriv a x) (.star a)
  | .eos, _ => .emp

/-- Whole-string matching (`re.fullmatch`). -/
def reFullmatch (r : RE) (s : String) : Bool := nullableEnd (s.data.foldl deriv r)

/-- Matching anchored at the start only (`re.match`): some prefix matches,
where acceptance before the end of the input is via `nullableMid`. -/
def reMatchStart : RE → List Char → Bool
  | r, [] => nullableEnd r
  | r, c :: cs => nullableMid r || reMatchStart (deriv r c) cs

/-- Predefined class for a backslash-d escape. -/
def dClass : RE := .cls false [] [('0', '9')]

/-- Predefined class for a backslash-w escape. -/
def wClass : RE := .cls false ['_'] [('a', 'z'), ('A', 'Z'), ('0', '9')]

/-- Whitespace characters of a backslash-s escape. -/
def sChars : List Char := [' ', '\t', '\n', '\x0b', '\x0c', '\r']

/-- Predefined class for a backslash-s escape. -/
def sClass : RE := .cls false sChars []

/-- Escape sequences outside classes: class escapes, or escaped punctuation as
a literal; unknown alphanumeric escapes are a compile error (Python
`re.error`), and backreferences are unsupported. -/
def escAtom (c : Char) : Option RE :=
  if c = 'd' then some dClass
  else if c = 'D' then some (.cls true [] [('0', '9')])
  else if c = 'w' then some wClass
  else if c = 'W' then some (.cls true ['_'] [('a', 'z'), ('A', 'Z'), ('0', '9')])
  else if c = 's' then some sClass
  else if c = 'S' then some (.cls true sChars [])
  else if c.isAlpha || c.isDigit then none
  else some (.chr c)

/-- Repeat a regex exactly n times. -/
def repExact (r : RE) : ℕ → RE
  | 0 => .eps
  | n + 1 => .cat r (repExact r n)

/-- Up to n optional copies of a regex. -/
def repOpt (r : RE) : ℕ → RE
  | 0 => .eps
  | n + 1 => .cat (.alt .eps r) (repOpt r n)

/-- Parse the items of a character class (after the opening bracket and the
optional caret); `first` is true before the first item, where a closing
bracket is still a literal. -/
def classItems : ℕ → List Char → Bool → List Char → List (Char × Char) →
    Option (List Char × List (Char × Char) × List Char)
  | 0, _, _, _, _ => none
  | fuel + 1, cs, first, single, ranges =>
    match cs with
    | [] => none
    | ']' :: rest =>
        if first then classItems fuel rest false (']' :: single) ranges
        else some (single, ranges, rest)
    | '\\' :: e :: rest =>
        if e = 'd' then classItems fuel rest false single (('0', '9') :: ranges)
        else if e = 'w' then
          classItems fuel rest false ('_' :: single)
            ([('a', 'z'), ('A', 'Z'), ('0', '9')] ++ ranges)
        else if e = 's' then classItems fuel rest false (sChars ++ single) ranges
        else if e.isAlpha || e.isDigit then none
        else classItems fuel rest false (e :: single) ranges
    | ['\\'] => none
    | c :: '-' :: d :: rest =>
        if d = ']' then some (c :: '-' :: single, ranges, rest)
        else if d = '\\' then none
        else classItems fuel rest false single ((c, d) :: ranges)
    | c :: rest => classItems fuel rest false (c :: single) ranges

/-- Parse a decimal number from the head of the input. -/
def parseNatChars : List Char → ℕ → Option (ℕ × List Char)
  | [], acc => some (acc, [])
  | c :: cs, acc =>
      if c.isDigit then parseNatChars cs (acc * 10 + (c.toNat - 48))
      else some (acc, c :: cs)

/-- Parse a counted repetition body after the opening brace: m | m, | m,n then
the closing brace.  Returns the bounds and the rest; `none` means the braces do
not form a quantifier (Python then treats the brace as a literal). -/
def parseCount (cs : List Char) : Option (ℕ × Option ℕ × List Char) :=
  match cs with
  | c :: _ =>
      if c.isDigit then
        match parseNatChars cs 0 with
        | some (m, rest) =>
            match rest with
            | '\x7d' :: rest2 => some (m, some m, rest2)
            | ',' :: '\x7d' :: rest2 => some (m, none, rest2)
            | ',' :: rest2 =>
                (match rest2 with
                 | d :: _ =>
                     if d.isDigit then
                       match parseNatChars rest2 0 with
                       | some (n, '\x7d' :: rest3) => some (m, some n, rest3)
                       | _ => none
                     else none
                 | [] => none)
            | _ => none
        | none => none
      else none
  | [] => none

/-- Drop a lazy-quantifier marker after a quantifier. -/
def dropLazy (cs : List Char) : List Char :=
  match cs with
  | '?' :: rest => rest
  | _ => cs

mutual

/-- Parse an alternation (the whole grammar level). -/
def parseAlt : ℕ → List Char → Option (RE × List Char)
  | 0, _ => none
  | fuel + 1, cs => do
      let (r, rest) ← parseCat fuel cs
      match rest with
      | '|' :: rest2 => do
          let (r2, rest3) ← parseAlt fuel rest2
          some (.alt r r2, rest3)
      | _ => some (r, rest)

/-- Parse a concatenation sequence. -/
def parseCat : ℕ → List Char → Option (RE × List Char)
  | 0, _ => none
  | fuel + 1, cs =>
    match cs with
    | [] => some (.eps, [])
    | ')' :: _ => some (.eps, cs)
    | '|' :: _ => some (.eps, cs)
    | _ => do
        let (r, rest) ← parseRep fuel cs
        let (r2, rest2) ← parseCat fuel rest
        some (.cat r r2, rest2)

/-- Parse one atom with an optional quantifier (and an optional lazy marker,
which does not change the accepted language). -/
def parseRep : ℕ → List Char → Option (RE × List Char)
  | 0, _ => none
  | fuel + 1, cs => do
      let (a, rest) ← parseAtom fuel cs
      match rest with
      | '*' :: rest2 => some (RE.star a, dropLazy rest2)
      | '+' :: rest2 => some (.cat a (RE.star a), dropLazy rest2)
      | '?' :: rest2 => some (.alt .eps a, dropLazy rest2)
      | '\x7b' :: rest2 =>
          (match parseCount rest2 with
           | some (m, some n, rest3) =>
               if n < m then none
               else some (.cat (repExact a m) (repOpt a (n - m)), dropLazy rest3)
           | some (m, none, rest3) =>
               some (.cat (repExact a m) (RE.star a), dropLazy rest3)
           | none => some (a, rest))
      | _ => some (a, rest)

/-- Parse an atom. -/
def parseAtom : ℕ → List Char → Option (RE × List Char)
  | 0, _ => none
  | fuel + 1, cs =>
    match cs with
    | [] => none
    | '(' :: rest => do
        let (r, rest2) ← parseAlt fuel rest
        match rest2 with
        | ')' :: rest3 => some (r, rest3)
        | _ => none
    | ')' :: _ => none
    | '|' :: _ => none
    | '[' :: rest =>
        (match rest with
         | '^' :: rest1 =>
             (classItems fuel rest1 true [] []).map (fun t => (RE.cls true t.1 t.2.1, t.2.2))
         | _ =>
             (classItems fuel rest true [] []).map (fun t => (RE.cls false t.1 t.2.1, t.2.2)))
    | '\\' :: e :: rest => do
        let r ← escAtom e
        some (r, rest)
    | ['\\'] => none
    | '.' :: rest => some (.dot, rest)
    | '^' :: rest => some (.eps, rest)
    | '$' :: rest => some (RE.eos, rest)
    | '*' :: _ => none
    | '+' :: _ => none
    | '?' :: _ => none
    | c :: rest => some (.chr c, rest)

end

/-- Compile a pattern string; `none` models `re.error`. -/
def reParse (p : String) : Option RE :=
  match parseAlt (4 * (p.length + 2)) p.data with
  | some (r, []) => some r
  | _ => none

/-- Fullmatch against a pattern string, `false` when the pattern is invalid
(the call sites either guard compilation or use literal valid patterns). -/
def reFullmatchStr (p s : String) : Bool :=
  match reParse p with
  | some r => reFullmatch r s
  | none => false

/-- Anchored match (`str.match`) against a pattern string; an invalid pattern
raises in the source (unguarded) and is mapped to `false` here, a branch no
theorem depends on. -/
def reMatchStartStr (p s : String) : Bool :=
  match reParse p with
  | some r => reMatchStart r s.data
  | none => false

/-! ## Numeric parsing (`pd.to_numeric(errors="coerce")` on a stripped string) -/

/-- Value of a digit list. -/
def digitsVal (ds : List Char) : ℕ := ds.foldl (fun a c => a * 10 + (c.toNat - 48)) 0

/-- Parse an optionally signed decimal with optional fraction and exponent.
Covers the numeric strings `pd.to_numeric` accepts; unparseable input gives
`none` (modelling NaN, which fails every range comparison). -/
def parseNumQ (s : String) : Option ℚ :=
  let cs := s.data
  let (sign, cs1) : ℚ × List Char :=
    match cs with
    | '-' :: t => (-1, t)
    | '+' :: t => (1, t)
    | _ => (1, cs)
  let (mant, expPart) :=
    match cs1.splitOn 'e' with
    | [_] =>
        (match cs1.splitOn 'E' with
         | [m2] => (m2, none)
         | [m2, e2] => (m2, some e2)
         | _ => ([], some []))
    | [m, e] => (m, some e)
    | _ => ([], some [])
  let (ip, fp) :=
    match mant.splitOn '.' with
    | [i] => (i, ([] : List Char))
    | [i, f] => (i, f)
    | _ => ([' '], [])
  if ip.all Char.isDigit ∧ fp.all Char.isDigit ∧ (ip ≠ [] ∨ fp ≠ []) then
    let base : ℚ := (digitsVal ip : ℚ) + (digitsVal fp : ℚ) / ((10 : ℚ) ^ fp.length)
    match expPart with
    | none => some (sign * base)
    | some ec =>
        let (esign, ed) : (Bool × List Char) :=
          match ec with
          | '-' :: t => (true, t)
          | '+' :: t => (false, t)
          | _ => (false, ec)
        if ed ≠ [] ∧ ed.all Char.isDigit then
          if esign then some (sign * base / ((10 : ℚ) ^ digitsVal ed))
          else some (sign * base * ((10 : ℚ) ^ digitsVal ed))
        else none
  else none

/-! ## Validity rules (dq.py 305-390 and the inline branches of
`execute_validity_rules`, dq.py 1212-1346) -/

/-- External date parsing (`pd.to_datetime`), kept as a parameter of the
embedding: `withFmt fmt s` is `none` when the call with an explicit format
raises (the guarded try/except path) and `some b` when it returns, `b` being
`notna()`; `auto s` is the dayfirst auto-detect parse.  Every theorem below
holds for all values of this parameter. -/
structure ExtDate where
  withFmt : String → String → Option Bool
  auto : String → Bool

/-- A trivial instantiation of the date parser, used in concrete witnesses. -/
def extDateNone : ExtDate := ⟨fun _ _ => none, fun _ => false⟩

/-- Email pattern of `rule_email_format` (dq.py 337). -/
def emailPattern : String := "^[a-zA-Z0-9_.+\\-]+@[a-zA-Z0-9\\-]+\\.[a-zA-Z0-9.\\-]+$"

/-- Phone pattern of `rule_phone_format` (dq.py 343). -/
def phonePattern : String := "^\\+?[0-9][\\d\\s\\-\\(\\)]\x7b6,14\x7d$"

/-- PAN pattern of `rule_pan_format` (dq.py 349). -/
def panPattern : String := "^[A-Z]\x7b5\x7d[0-9]\x7b4\x7d[A-Z]$"

/-- One configured validity rule (the `rule` name together with the parameters
its branch of `execute_validity_rules` reads from the config). -/
inductive VRule
  | emailFormat
  | phoneFormat
  | panFormat
  | dataType (expected : String)
  | dateFormat (fmt : String)
  | numericRange (rmin rmax : ℚ)
  | allowedValues (raw : String)
  | customRegex (pattern : String)
  | specialCharsNotAllowed (pattern : String)
  | lengthCheck (maxLen : ℕ)
  | formatCheck (pattern : String)
deriving Repr, DecidableEq

/-- Allowed-values list parsing: split on commas, strip, drop empties. -/
def parseAllowedList (raw : String) : List String :=
  ((raw.data.splitOn ',').map (fun l => pyStrip ⟨l⟩)).filter (fun v => v ≠ "")

/-- Per-cell pass/fail of each validity rule, mirroring the `rule_*` functions
and the inline masks of `execute_validity_rules`.  `s.isna()` is identically
false for string cells (the loader uses `dtype=str, keep_default_na=False`),
so the `| s.isna()` disjuncts of the inline rules are dropped. -/
def validityCellPass (E : ExtDate) (r : VRule) (v : String) : Bool :=
  match r with
  | .emailFormat =>
      let s := pyStrip v
      isEmptyForValidity s || reFullmatchStr emailPattern s
  | .phoneFormat =>
      let s := pyStrip v
      isEmptyForValidity s || reFullmatchStr phonePattern s
  | .panFormat =>
      let s := pyUpper (pyStrip v)
      isEmptyForValidity s || reFullmatchStr panPattern s
  | .dataType expected =>
      let s := pyStrip v
      if expected = "numeric" then isEmptyForValidity s || reFullmatchStr "-?\\d+\\.?\\d*" s
      else if expected = "integer" then isEmptyForValidity s || reFullmatchStr "-?\\d+" s
      else if expected = "float" then isEmptyForValidity s || reFullmatchStr "-?\\d+\\.\\d+" s
      else if expected = "date" then isEmptyForValidity s || E.auto s
      else true
  | .dateFormat fmt =>
      let s := pyStrip v
      (match (if fmt ≠ "" then E.withFmt fmt s else none) with
       | some valid => isEmptyForValidity s || valid
       | none => isEmptyForValidity s || E.auto s)
  | .numericRange rmin rmax =>
      let s := pyStrip v
      isEmptyForValidity s ||
        (match parseNumQ s with
         | some q => decide (rmin ≤ q) && decide (q ≤ rmax)
         | none => false)
  | .allowedValues raw =>
      let s := pyStrip v
      isEmptyForValidity s ||
        ((parseAllowedList raw).map (fun a => pyLower a)).contains (pyLower s)
  | .customRegex p =>
      let s := pyStrip v
      (match reParse p with
       | none => true
       | some re => isEmptyForValidity s || reFullmatch re s)
  | .specialCharsNotAllowed p => reMatchStartStr p v
  | .lengthCheck maxLen => decide (v.length ≤ maxLen)
  | .formatCheck p => reMatchStartStr p v

/-- Rule label used in annexure rows and the audit log (numeric parameters are
rendered with the Lean rational printer where Python prints floats; no theorem
depends on that text). -/
def vRuleLabel : VRule → String
  | .emailFormat => "Email Format"
  | .phoneFormat => "Phone Format"
  | .panFormat => "PAN Format"
  | .dataType expected => "Data Type (" ++ expected ++ ")"
  | .dateFormat _ => "Date Format"
  | .numericRange rmin rmax => "Numeric Range [" ++ toString rmin ++ "–" ++ toString rmax ++ "]"
  | .allowedValues _ => "Allowed Values"
  | .customRegex p => "Regex: " ++ p.take 30
  | .specialCharsNotAllowed _ => "Special Characters Not Allowed"
  | .lengthCheck maxLen => "Length Check (max " ++ toString maxLen ++ ")"
  | .formatCheck p => "Format Check (" ++ p.take 30 ++ ")"

/-- Preview of an allowed-values list: first five entries, ellipsis beyond. -/
def allowedPreview (lst : List String) : String :=
  String.intercalate ", " (lst.take 5) ++ (if 5 < lst.length then "…" else "")

/-- Expected-value text per rule. -/
def vRuleExpected : VRule → String
  | .emailFormat => "Valid email (user@domain.tld)"
  | .phoneFormat => "Valid phone (7–15 digits)"
  | .panFormat => "PAN: AAAAA9999A"
  | .dataType expected => "Expected type: " ++ expected
  | .dateFormat fmt =>
      "Valid date" ++ (if fmt ≠ "" then " (" ++ fmt ++ ")" else " (any parseable)")
  | .numericRange rmin rmax => "Between " ++ toString rmin ++ " and " ++ toString rmax
  | .allowedValues raw => "One of: " ++ allowedPreview (parseAllowedList raw)
  | .customRegex p => "Matches: " ++ p.take 50
  | .specialCharsNotAllowed _ => "Alphanumeric + spaces only"
  | .lengthCheck maxLen => "Length ≤ " ++ toString maxLen
  | .formatCheck p => "Expected format: " ++ p.take 50

/-- A rule is active if its branch runs at all: Allowed Values needs a
non-empty parsed list, Custom Regex a non-empty pattern. -/
def vRuleActive : VRule → Bool
  | .allowedValues raw => decide (parseAllowedList raw ≠ [])
  | .customRegex p => decide (p ≠ "")
  | _ => true

/-- One entry of the column-rule map handed to `execute_validity_rules`. -/
structure VEntry where
  column : String
  rule : VRule
deriving Repr, DecidableEq

/-- Row indices failing one rule on one column. -/
def validityFails (E : ExtDate) (df : Df) (col : String) (r : VRule) : List ℕ :=
  (df.rows.enum.filter (fun ir => !(validityCellPass E r (df.cellAt ir.2 col)))).map
    (fun ir => ir.1)

/-- Annexure rows for one rule on one column (`_annex_row` fields). -/
def validityAnnex (E : ExtDate) (df : Df) (col : String) (r : VRule) : List IssueRecord :=
  (validityFails E df col r).map (fun i =>
    { rowNumber := i + 2, columnName := col, ruleApplied := vRuleLabel r,
      issueType := "Invalid Format", originalValue := df.cell i col,
      expectedValue := vRuleExpected r, dimension := "Validity" })

/-- Embeds the column-rule-map path of `execute_validity_rules`
(dq.py 1252-1346): per entry, a column present in the dataset is evaluated,
annexure rows are appended for every failing row, and one audit entry is
appended with evaluated = row count and failed = failure count.  The global
audit log is threaded as an explicit output. -/
def executeValidityRules (E : ExtDate) (df : Df) (entries : List VEntry) :
    List IssueRecord × List AuditEntry :=
  entries.foldl (fun acc e =>
    if df.cols.contains e.column && vRuleActive e.rule then
      (acc.1 ++ validityAnnex E df e.column e.rule,
       acc.2 ++ [logRule "Validity" e.column (vRuleLabel e.rule) df.nRows
          (validityFails E df e.column e.rule).length])
    else acc) ([], [])

/-- The eight validity rules whose masks consult `_is_empty_for_validity`
(the skip helper); Special Characters Not Allowed, Length Check and Format
Check do not. -/
def usesValiditySkip : VRule → Bool
  | .emailFormat => true
  | .phoneFormat => true
  | .panFormat => true
  | .dataType _ => true
  | .dateFormat _ => true
  | .numericRange _ _ => true
  | .allowedValues _ => true
  | .customRegex _ => true
  | _ => false

/-! ## Standardization transforms (dq.py 911-970) and their executor
(`execute_standardization_rules`, dq.py 1530-1647, column-rule-map path) -/

/-- Python `str.title()`: a cased letter that follows a non-letter is
uppercased, any other letter lowercased (ASCII). -/
def pyTitleAux : Bool → List Char → List Char
  | _, [] => []
  | prevAlpha, c :: cs =>
      if c.isAlpha then
        (if prevAlpha then c.toLower else c.toUpper) :: pyTitleAux true cs
      else c :: pyTitleAux false cs

/-- Python `str.title()` on a string. -/
def pyTitle (s : String) : String := ⟨pyTitleAux false s.data⟩

/-- Replace every maximal whitespace run by one space
(`re.sub(backslash-s+, " ", s)`). -/
def collapseWsAux : Bool → List Char → List Char
  | _, [] => []
  | inWs, c :: cs =>
      if isPyWs c then (if inWs then [] else [' ']) ++ collapseWsAux true cs
      else c :: collapseWsAux false cs

/-- Whitespace-run collapsing on a string. -/
def collapseWs (s : String) : String := ⟨collapseWsAux false s.data⟩

/-- Drop every character outside letters, digits and whitespace
(the substitution of the class complement in `std_remove_special_chars`). -/
def removeSpecial (s : String) : String :=
  ⟨s.data.filter (fun c => c.isAlpha || c.isDigit || isPyWs c)⟩

/-- External date normalisation (`pd.to_datetime(...).dt.strftime(fmt)`), kept
as a parameter: `format fmt s` is the formatted date when the stripped value
parses, `none` when it does not (NaT, which `fillna` maps back to the
original).  Every theorem below holds for all values of this parameter. -/
structure ExtDateFmt where
  format : String → String → Option String

/-- A trivial instantiation of the date formatter for concrete witnesses. -/
def extDateFmtNone : ExtDateFmt := ⟨fun _ _ => none⟩

/-- One configured standardization rule with its parameters. -/
inductive SRule
  | trimSpaces
  | removeExtraSpaces
  | properCase
  | lowercase
  | uppercase
  | removeSpecialChars
  | normalizeDate (fmt : String)
  | replaceNullDefault (dflt : String)
deriving Repr, DecidableEq

/-- Per-cell standardization: the cleaned value and the changed flag, exactly
as the `std_*` functions compute them.  The seven value transforms flag
`original != cleaned`; `std_replace_null_default` flags its null mask instead
(stripped value empty, "nan" or "none"; `series.isna()` is identically false
for string cells), while its cleaned value is the stripped original for
unmasked cells. -/
def stdCell (F : ExtDateFmt) : SRule → String → String × Bool
  | .trimSpaces, v => (pyStrip v, v != pyStrip v)
  | .removeExtraSpaces, v =>
      let c := collapseWs (pyStrip v)
      (c, v != c)
  | .properCase, v =>
      let c := pyTitle (pyStrip v)
      (c, v != c)
  | .lowercase, v =>
      let c := pyLower (pyStrip v)
      (c, v != c)
  | .uppercase, v =>
      let c := pyUpper (pyStrip v)
      (c, v != c)
  | .removeSpecialChars, v =>
      let c := pyStrip (removeSpecial v)
      (c, v != c)
  | .normalizeDate fmt, v =>
      let c := match F.format fmt (pyStrip v) with
        | some d => d
        | none => v
      (c, v != c)
  | .replaceNullDefault dflt, v =>
      let s := pyStrip v
      let mask := s == "" || pyLower s == "nan" || pyLower s == "none"
      (if mask then dflt else s, mask)

/-- Rule label used in annexure rows and the audit log. -/
def sRuleLabel : SRule → String
  | .trimSpaces => "Trim Spaces"
  | .removeExtraSpaces => "Remove Extra Spaces"
  | .properCase => "Convert to Proper Case"
  | .lowercase => "Convert to Lowercase"
  | .uppercase => "Convert to Uppercase"
  | .removeSpecialChars => "Remove Special Characters"
  | .normalizeDate fmt => "Normalize Date (" ++ fmt ++ ")"
  | .replaceNullDefault dflt => "Replace Null → " ++ dflt

/-- One entry of the column-rule map handed to
`execute_standardization_rules`. -/
structure SEntry where
  column : String
  rule : SRule
deriving Repr, DecidableEq

/-- Row indices whose changed flag is set for one rule on one column. -/
def stdFails (F : ExtDateFmt) (df : Df) (col : String) (r : SRule) : List ℕ :=
  (df.rows.enum.filter (fun ir => (stdCell F r (df.cellAt ir.2 col)).2)).map (fun ir => ir.1)

/-- Annexure rows for one rule on one column: original value and the cleaned
value as the expected value (the default for Replace Null, which coincides
with the cleaned value on flagged cells). -/
def stdAnnex (F : ExtDateFmt) (df : Df) (col : String) (r : SRule) : List IssueRecord :=
  (stdFails F df col r).map (fun i =>
    { rowNumber := i + 2, columnName := col, ruleApplied := sRuleLabel r,
      issueType := "Non-Standard Values", originalValue := df.cell i col,
      expectedValue :=
        (match r with
         | .replaceNullDefault dflt => dflt
         | _ => (stdCell F r (df.cell i col)).1),
      dimension := "Standardization" })

/-- The cleaned column values. -/
def stdNewCol (F : ExtDateFmt) (df : Df) (col : String) (r : SRule) : List String :=
  df.rows.map (fun row => (stdCell F r (df.cellAt row col)).1)

/-- Replace the values of one column (no change when the column is absent). -/
def Df.setCol (df : Df) (c : String) (vals : List String) : Df :=
  match df.colIdx c with
  | some j => ⟨df.cols, (df.rows.zip vals).map (fun rv => rv.1.set j rv.2)⟩
  | none => df

/-- Embeds the column-rule-map path of `execute_standardization_rules`: per
entry, the column (when present) is cleaned in place in the working copy, one
annexure row is appended per changed cell, and one audit entry is appended
with evaluated = row count and failed = changed count.  Returns the cleaned
DataFrame, the annexure and the audit log. -/
def executeStandardizationRules (F : ExtDateFmt) (df : Df) (entries : List SEntry) :
    Df × List IssueRecord × List AuditEntry :=
  entries.foldl (fun acc e =>
    let cleaned := acc.1
    if cleaned.cols.contains e.column then
      (cleaned.setCol e.column (stdNewCol F cleaned e.column e.rule),
       acc.2.1 ++ stdAnnex F cleaned e.column e.rule,
       acc.2.2 ++ [logRule "Standardization" e.column (sRuleLabel e.rule) cleaned.nRows
          (stdFails F cleaned e.column e.rule).length])
    else acc) (df, [], [])

/-- The standardization rules whose changed flag is literally
`original != cleaned` (all but Replace Null with Default). -/
def flagIsChange : SRule → Bool
  | .replaceNullDefault _ => false
  | _ => true

/-! ## Hybrid fuzzy scoring engine (dq.py 506-663)

The four classic scorers of the rapidfuzz ensemble, over already-normalised
strings: full-string indel ratio, best-alignment partial ratio, token-sort
ratio and token-set ratio, combined with the fixed `_SCORER_WEIGHTS`
0.15/0.20/0.30/0.35.  The vectorised cdist tier computes the same per-pair
values as the scalar `_hybrid_row_score` tier, so one scoring function models
both in-cap tiers. -/

/-- Executable maximum of two naturals. -/
def nmax (a b : ℕ) : ℕ := if a ≤ b then b else a

/-- Longest common subsequence length (fuel-structured so that the kernel can
evaluate it; the fuel `|a| + |b|` always suffices). -/
def lcsFuel : ℕ → List Char → List Char → ℕ
  | 0, _, _ => 0
  | _ + 1, [], _ => 0
  | _ + 1, _ :: _, [] => 0
  | fuel + 1, a :: as, b :: bs =>
      if a = b then lcsFuel fuel as bs + 1
      else nmax (lcsFuel fuel as (b :: bs)) (lcsFuel fuel (a :: as) bs)

/-- Longest common subsequence length. -/
def lcs (a b : List Char) : ℕ := lcsFuel (a.length + b.length + 1) a b

/-- Normalised indel similarity in [0, 100]
(`fuzz.ratio`): 100·(1 − dist/(|a|+|b|)) with dist = |a|+|b|−2·lcs,
which equals 100·2·lcs/(|a|+|b|); both-empty gives 100. -/
def indelSim (a b : List Char) : ℚ :=
  if a.length + b.length = 0 then 100
  else (100 * (2 * (lcs a b : ℚ))) / ((a.length : ℚ) + (b.length : ℚ))

/-- Maximum of a rational list over an initial value. -/
def listMaxQ (l : List ℚ) (init : ℚ) : ℚ := l.foldl qmax init

/-- Full-string scorer (`fuzz.ratio`). -/
def scoreFull (a b : List Char) : ℚ := indelSim a b

/-- All contiguous windows of width `w` of a list. -/
def windowsOf (b : List Char) (w : ℕ) : List (List Char) :=
  (List.range (b.length - w + 1)).map (fun i => (b.drop i).take w)

/-- The alignments that `fuzz.partial_ratio` scores for a needle of length
`w` against `b`, per the three loops of the rapidfuzz short-needle
implementation: the proper prefixes of `b` shorter than the needle, every
width-`w` window, and the proper suffixes of `b` shorter than the needle.
The boundary-character skip and running score cutoff in the library are
pruning only (a skipped window never beats every retained one), so the
maximum over this full window list is the value the library returns. -/
def partWindows (b : List Char) (w : ℕ) : List (List Char) :=
  ((List.range (w - 1)).map (fun i => b.take (i + 1))) ++
  windowsOf b w ++
  ((List.range (w - 1)).map (fun i => b.drop (b.length - w + 1 + i)))

/-- Best-alignment scorer (`fuzz.partial_ratio`): the best ratio of the
shorter string against the boundary and full-width windows of the longer
one; an empty side scores 0 unless both are empty. -/
def scorePart (a b : List Char) : ℚ :=
  let s := if a.length ≤ b.length then a else b
  let l := if a.length ≤ b.length then b else a
  if s.length = 0 then (if l.length = 0 then 100 else 0)
  else listMaxQ ((partWindows l s.length).map (fun w => indelSim s w)) 0

/-- Whitespace tokenisation (Python `str.split()`), dropping empties. -/
def splitWsAux : List Char → List Char → List (List Char)
  | [], cur => if cur = [] then [] else [cur.reverse]
  | c :: cs, cur =>
      if isPyWs c then
        (if cur = [] then splitWsAux cs [] else cur.reverse :: splitWsAux cs [])
      else splitWsAux cs (c :: cur)

/-- Tokens of a character list. -/
def pyTokens (s : List Char) : List (List Char) := splitWsAux s []

/-- Lexicographic strict order on character lists (code-point order). -/
def lexLt : List Char → List Char → Bool
  | [], [] => false
  | [], _ :: _ => true
  | _ :: _, [] => false
  | a :: as, b :: bs => if a < b then true else if b < a then false else lexLt as bs

/-- Lexicographic order used for sorting tokens. -/
def lexLe (a b : List Char) : Bool := !(lexLt b a)

/-- Sorted insertion for tokens. -/
def insertTok (x : List Char) : List (List Char) → List (List Char)
  | [] => [x]
  | y :: ys => if lexLe x y then x :: y :: ys else y :: insertTok x ys

/-- Sort a token list (Python `sorted`). -/
def sortToks (l : List (List Char)) : List (List Char) := l.foldr insertTok []

/-- First-occurrence deduplication (set semantics with a defined order). -/
def dedupBy [BEq α] : List α → List α → List α
  | [], _ => []
  | x :: xs, seen => if seen.contains x then dedupBy xs seen else x :: dedupBy xs (x :: seen)

/-- First-occurrence deduplication of a list. -/
def firstDedup [BEq α] (l : List α) : List α := dedupBy l []

/-- Join tokens with single spaces. -/
def joinToks (ts : List (List Char)) : List Char := List.intercalate [' '] ts

/-- Token-order-invariant scorer (`fuzz.token_sort_ratio`). -/
def scoreTokSort (a b : List Char) : ℚ :=
  scoreFull (joinToks (sortToks (pyTokens a))) (joinToks (sortToks (pyTokens b)))

/-- Token-set scorer (`fuzz.token_set_ratio`): sorted unique tokens, the
intersection string against each side, a full containment short-circuits to
100. -/
def scoreTokSet (a b : List Char) : ℚ :=
  let ta := sortToks (firstDedup (pyTokens a))
  let tb := sortToks (firstDedup (pyTokens b))
  let sect := ta.filter (fun t => tb.contains t)
  let diffA := ta.filter (fun t => !(tb.contains t))
  let diffB := tb.filter (fun t => !(ta.contains t))
  if sect ≠ [] ∧ (diffA = [] ∨ diffB = []) then 100
  else
    let s0 := joinToks sect
    let s1 := joinToks (sect ++ diffA)
    let s2 := joinToks (sect ++ diffB)
    listMaxQ [scoreFull s0 s1, scoreFull s0 s2, scoreFull s1 s2] 0

/-- The 4-scorer weighted ensemble with `_SCORER_WEIGHTS`
(ratio 0.15, partial 0.20, token-sort 0.30, token-set 0.35). -/
def scoreEnsemble (a b : List Char) : ℚ :=
  (15 * scoreFull a b + 20 * scorePart a b + 30 * scoreTokSort a b + 35 * scoreTokSet a b) / 100

/-- Embeds `_hybrid_cell_score` (dq.py 532-568): normalise both values, then
the equal / both-empty / one-empty short-circuits, else the ensemble. -/
def hybridCellScore (a b : String) : ℚ :=
  let a1 := normCell a
  let b1 := normCell b
  if a1 = b1 then 100
  else if a1 = "" ∧ b1 = "" then 100
  else if a1 = "" ∨ b1 = "" then 0
  else scoreEnsemble a1.data b1.data

/-- Embeds `_hybrid_row_score` (dq.py 571-607): weighted average of per-column
cell scores; non-positive weights skip the column; no positive weight gives 0.
(`pd.isna` is identically false for string cells.) -/
def hybridRowScore (df : Df) (a b : List String) (cols : List String)
    (weights : List ℚ) : ℚ :=
  let pairs := (cols.zip weights).filterMap (fun cw =>
    if cw.2 ≤ 0 then none
    else some (hybridCellScore (df.cellAt a cw.1) (df.cellAt b cw.1), cw.2))
  if pairs = [] then 0
  else (pairs.map (fun p => p.1 * p.2)).sum / (pairs.map (fun p => p.2)).sum

/-! ## Exact duplicate detection (dq.py 396-503) -/

/-- Embeds `detect_exact_duplicates_single` (dq.py 396-427): normalise the
column, exclude null-sentinel rows, flag values occurring at least twice among
the remaining rows; returns (row index, 1-based group id) pairs, group ids in
first-occurrence order of the duplicated values (`Row_Number` is the index
plus 2). -/
def detectExactSingle (df : Df) (col : String) : List (ℕ × ℕ) :=
  let s := df.rows.enum.map (fun ir => (ir.1, normCell (df.cellAt ir.2 col)))
  let valid := s.filter (fun x => !(isNullSentinel x.2))
  let dups := valid.filter (fun x => 2 ≤ (valid.filter (fun y => y.2 = x.2)).length)
  let vals := firstDedup (dups.map (fun x => x.2))
  dups.map (fun x => (x.1, vals.findIdx (fun y => y == x.2) + 1))

/-- Embeds `detect_exact_duplicates_combination` (dq.py 465-503): rows where
every selected column normalises to a null sentinel are excluded, the rest are
grouped by the composite key joined with a double bar. -/
def detectExactCombination (df : Df) (cols : List String) : List (ℕ × ℕ) :=
  let combo := df.rows.enum.map (fun ir =>
    (ir.1, cols.map (fun c => normCell (df.cellAt ir.2 c))))
  let valid := combo.filter (fun x => !(x.2.all (fun v => isNullSentinel v)))
  let keyed := valid.map (fun x => (x.1, String.intercalate "||" x.2))
  let dups := keyed.filter (fun x => 2 ≤ (keyed.filter (fun y => y.2 = x.2)).length)
  let vals := firstDedup (dups.map (fun x => x.2))
  dups.map (fun x => (x.1, vals.findIdx (fun y => y == x.2) + 1))

/-! ## Hybrid fuzzy duplicate detection (`detect_fuzzy_duplicates`,
dq.py 666-902) -/

/-- Warnings returned alongside results; each constructor stands for one
message text of dq.py (null-row skip report, oversized-block skip report,
missing-rapidfuzz fallback notice, per-block scalar fallback notice — the
modelled configuration has rapidfuzz and cdist available, so the last two do
not arise). -/
inductive Warning
  | rapidfuzzMissing
  | fuzzySkippedNullRows (dropped : ℕ)
  | fuzzyBlocksSkipped (skipped : ℕ) (cap : ℕ)
  | fuzzyScalarFallback (blocks : ℕ)
deriving Repr, DecidableEq

/-- Geographic column candidates, in the priority order of dq.py 760-761. -/
def GEO_COLS : List String :=
  ["Country", "country", "COUNTRY", "City", "city", "CITY",
   "State", "state", "STATE", "Region", "region"]

/-- Prefix of a string (`str[:n]`). -/
def strTake (s : String) (n : ℕ) : String := ⟨s.data.take n⟩

/-- The ignore-nulls row filter: keep a row iff every selected column that
exists in the dataset has a non-sentinel normalised value. -/
def fuzzyValidRow (df : Df) (cols : List String) (r : List String) : Bool :=
  cols.all (fun c =>
    if df.cols.contains c then !(isNullSentinel (normCell (df.cellAt r c))) else true)

/-- The working row set: the enumerated rows, filtered when ignore-nulls is
on. -/
def fuzzyWork (df : Df) (cols : List String) (ignoreNulls : Bool) :
    List (ℕ × List String) :=
  if ignoreNulls then df.rows.enum.filter (fun ir => fuzzyValidRow df cols ir.2)
  else df.rows.enum

/-- First geographic column present in the dataset. -/
def geoCol (df : Df) : Option String := GEO_COLS.find? (fun g => df.cols.contains g)

/-- The blocking key: first two characters of the normalised primary fuzzy
column, plus a bar and the first three characters of the geographic column
when one exists. -/
def blockKey (df : Df) (cols : List String) (r : List String) : String :=
  let k := strTake (normCell (df.cellAt r (cols.headD ""))) 2
  match geoCol df with
  | some g => k ++ "|" ++ strTake (normCell (df.cellAt r g)) 3
  | none => k

/-- Rows with a non-empty blocking key (`work[work["_block"] != ""]`). -/
def fuzzyKeyed (df : Df) (cols : List String) (ign : Bool) : List (ℕ × List String) :=
  (fuzzyWork df cols ign).filter (fun ir => blockKey df cols ir.2 ≠ "")

/-- The blocks: for each distinct key in first-occurrence order, the rows
carrying it (the `groupby(..., sort=False)` grouping). -/
def fuzzyBlocks (df : Df) (cols : List String) (ign : Bool) :
    List (String × List (ℕ × List String)) :=
  let keyed := fuzzyKeyed df cols ign
  (firstDedup (keyed.map (fun ir => blockKey df cols ir.2))).map
    (fun k => (k, keyed.filter (fun ir => blockKey df cols ir.2 = k)))

/-- Pair count of a block of n rows: n·(n−1)/2. -/
def blockPairCount (n : ℕ) : ℕ := n * (n - 1) / 2

/-- One accepted pair with its score. -/
structure MatchRec where
  i : ℕ
  j : ℕ
  score : ℚ
deriving Repr, DecidableEq

/-- All ordered pairs (earlier element first) of a list. -/
def pairsOf : List α → List (α × α)
  | [] => []
  | x :: xs => (xs.map (fun y => (x, y))) ++ pairsOf xs

/-- Score every pair of a block and keep those at or above the threshold. -/
def scoredPairs (df : Df) (cols : List String) (weights : List ℚ) (threshold : ℚ)
    (blk : List (ℕ × List String)) : List MatchRec :=
  (pairsOf blk).filterMap (fun ab =>
    let sc := hybridRowScore df ab.1.2 ab.2.2 cols weights
    if threshold ≤ sc then some ⟨ab.1.1, ab.2.1, sc⟩ else none)

/-- All accepted pairs across the blocks; a block with more pairs than the cap
contributes nothing (the performance guard). -/
def fuzzyMatches (df : Df) (cols : List String) (weights : List ℚ) (threshold : ℚ)
    (cap : ℕ) (ign : Bool) : List MatchRec :=
  (fuzzyBlocks df cols ign).flatMap (fun b =>
    if b.2.length < 2 then []
    else if blockPairCount b.2.length ≤ cap then scoredPairs df cols weights threshold b.2
    else [])

/-- Number of skipped (oversized) blocks. -/
def skippedBlocksCount (df : Df) (cols : List String) (ign : Bool) (cap : ℕ) : ℕ :=
  ((fuzzyBlocks df cols ign).filter (fun b =>
    decide (2 ≤ b.2.length) && decide (cap < blockPairCount b.2.length))).length

/-- Union of two classes in the disjoint-set structure.  The imperative
union-find (parent map with path compression, dq.py 845-860) is modelled by
the root assignment it computes: `_find` returns the root of its argument and
`_union` redirects every member of the second root class to the first root. -/
def dsuUnion (root : ℕ → ℕ) (x y : ℕ) : ℕ → ℕ :=
  let rx := root x
  let ry := root y
  if rx = ry then root else fun z => if root z = ry then rx else root z

/-- Sorted insertion by descending score (`sort_values("_score",
ascending=False)`; order among equal scores is implementation-defined in the
source and does not affect the grouping). -/
def insertMatch (m : MatchRec) : List MatchRec → List MatchRec
  | [] => [m]
  | x :: xs => if decide (x.score < m.score) then m :: x :: xs else x :: insertMatch m xs

/-- Sort the accepted pairs by descending score. -/
def sortMatchesDesc (ms : List MatchRec) : List MatchRec := ms.foldr insertMatch []

/-- The root assignment after processing every accepted pair. -/
def dsuOfMatches (ms : List MatchRec) : ℕ → ℕ :=
  (sortMatchesDesc ms).foldl (fun root m => dsuUnion root m.i m.j) id

/-- Every matched row index (the union of the pair endpoints; the source
iterates a Python set, whose order is unspecified — first-occurrence order is
used here, and only group numbering depends on it). -/
def allMatched (ms : List MatchRec) : List ℕ :=
  firstDedup (ms.map (fun m => m.i) ++ ms.map (fun m => m.j))

/-- The duplicate groups: members grouped by final root, kept when of size at
least 2, each with its best pairwise score (the threshold is the fallback
initial value, never the maximum since every accepted score is at or above
it). -/
def fuzzyGroups (df : Df) (cols : List String) (weights : List ℚ) (threshold : ℚ)
    (cap : ℕ) (ign : Bool) : List (List ℕ × ℚ) :=
  let ms := fuzzyMatches df cols weights threshold cap ign
  let root := dsuOfMatches ms
  let matched := allMatched ms
  (firstDedup (matched.map root)).filterMap (fun rt =>
    let mems := matched.filter (fun x => root x = rt)
    if mems.length < 2 then none
    else
      let gp := ms.filter (fun m => mems.contains m.i && mems.contains m.j)
      some (mems, listMaxQ (gp.map (fun m => m.score)) threshold))

/-- The result of the fuzzy engine: the groups (member row indices in work
order, with the representative score; `Row_Number` is the index plus 2 and
group ids are 1-based positions) and the warnings list. -/
structure FuzzyOut where
  groups : List (List ℕ × ℚ)
  warnings : List Warning
deriving Repr, DecidableEq

/-- Embeds `detect_fuzzy_duplicates` (dq.py 666-902) in the
rapidfuzz-available configuration: empty column list short-circuits; absent or
length-mismatched weights are replaced by equal weights; null rows are dropped
and reported when ignore-nulls is on; oversized blocks are skipped and
reported; accepted pairs are merged by union-find into groups. -/
def detectFuzzyDuplicates (df : Df) (cols : List String) (threshold : ℚ)
    (weightsOpt : Option (List ℚ)) (cap : ℕ) (ign : Bool) : FuzzyOut :=
  if cols = [] then ⟨[], []⟩
  else
    let weights :=
      match weightsOpt with
      | some w => if w.length = cols.length then w else List.replicate cols.length 1
      | none => List.replicate cols.length 1
    let dropped := df.rows.length - (fuzzyWork df cols ign).length
    let w1 : List Warning :=
      if ign ∧ dropped ≠ 0 then [.fuzzySkippedNullRows dropped] else []
    let skipped := skippedBlocksCount df cols ign cap
    let w2 : List Warning := if skipped ≠ 0 then [.fuzzyBlocksSkipped skipped cap] else []
    ⟨fuzzyGroups df cols weights threshold cap ign, w1 ++ w2⟩

/-! ## Theorems for claims C3, C6, C10 (scoring engine)

The rational arithmetic operations are `@[irreducible]` in the library; for
concrete evaluation in witnesses and counterexamples we locally restore their
default reducibility. -/

attribute [local semireducible] Rat.add Rat.sub Rat.mul Rat.inv Rat.ofScientific

/-- Helper: with `d ≤ t` and `0 < t` the `max(0.0, _)` guard of the scoring
formula is inert and the two ways of writing the percentage agree. -/
theorem qmax_zero_score (t d : ℕ) (ht : 0 < t) (hd : d ≤ t) :
    qmax 0 (((t : ℚ) - (d : ℚ)) / (t : ℚ) * 100) = 100 * ((t : ℚ) - (d : ℚ)) / (t : ℚ) := by
  have htq : (0 : ℚ) < (t : ℚ) := by exact_mod_cast ht
  have hdq : (d : ℚ) ≤ (t : ℚ) := by exact_mod_cast hd
  have hnum : (0 : ℚ) ≤ (t : ℚ) - (d : ℚ) := by linarith
  have hnn : (0 : ℚ) ≤ ((t : ℚ) - (d : ℚ)) / (t : ℚ) * 100 := by positivity
  have hring : 100 * ((t : ℚ) - (d : ℚ)) / (t : ℚ) = ((t : ℚ) - (d : ℚ)) / (t : ℚ) * 100 := by
    ring
  unfold qmax
  rcases lt_or_eq_of_le hnn with hlt | heq
  · rw [if_pos hlt, hring]
  · rw [if_neg (by rw [← heq]; exact lt_irrefl 0), hring, ← heq]

/-- Claim C3 (corrected), counterexample to the claim as stated: with an empty
execution log (no audit entries at all for Completeness),
`compute_completeness_score` does not return an explicit "not evaluated" value;
its annexure-based fallback returns the numeric default 100.0 as soon as a rule
is selected, contradicting "never a default of 100%". -/
theorem c3_counterexample :
    computeCompletenessScore 1 [] ["a"] ["Not Null"] none [] = 100 ∧
    ([] : List AuditEntry).filter (fun e => e.dimension = "Completeness") = [] := by
  constructor
  · decide
  · rfl

/-- Claim C3 (amended): for each dimension, `_score_from_log` returns
"not evaluated" (`none`) exactly when no audit entries exist for it, and
otherwise (with a sound log, Σfailed ≤ Σevaluated > 0) returns
100 × (Σevaluated − Σfailed) / Σevaluated rounded half-even to two decimals.
The claim as stated fails only at the `compute_*_score` wrapper level, which
falls back to a numeric annexure-based estimate when the log is empty
(see the counterexample). -/
theorem c3_theorem (log : List AuditEntry) (dimension : String) :
    (dimEntries log dimension = [] → scoreFromLog log dimension = none) ∧
    (0 < dimEvaluated log dimension → dimFailed log dimension ≤ dimEvaluated log dimension →
      scoreFromLog log dimension =
        some (round2 (100 * ((dimEvaluated log dimension : ℚ) - (dimFailed log dimension : ℚ)) /
          (dimEvaluated log dimension : ℚ)))) := by
  constructor
  · intro hempty
    unfold scoreFromLog
    rw [if_pos hempty]
  · intro hpos hle
    have hne : ¬ dimEntries log dimension = [] := by
      intro hempty
      have : dimEvaluated log dimension = 0 := by
        unfold dimEvaluated
        rw [hempty]
        rfl
      omega
    unfold scoreFromLog
    rw [if_neg hne, if_neg (by omega : ¬ dimEvaluated log dimension = 0),
      qmax_zero_score _ _ hpos hle]

/-- Witness for C3: a concrete one-entry log (10 evaluated, 2 failed) where the
theorem yields the audited score 100 × (10 − 2) / 10. -/
theorem c3_witness :
    scoreFromLog [logRule "Completeness" "email" "Not Null" 10 2] "Completeness" =
      some (round2 (100 *
        ((dimEvaluated [logRule "Completeness" "email" "Not Null" 10 2] "Completeness" : ℚ) -
         (dimFailed [logRule "Completeness" "email" "Not Null" 10 2] "Completeness" : ℚ)) /
        (dimEvaluated [logRule "Completeness" "email" "Not Null" 10 2] "Completeness" : ℚ))) :=
  (c3_theorem [logRule "Completeness" "email" "Not Null" 10 2] "Completeness").2
    (by decide) (by decide)

/-- Helper: unfolding of `compute_uniqueness_score` on a present
duplicate-records input with a non-empty dataset. -/
theorem computeUniqueness_some (total : ℕ) (rs : List ℕ) (log : List AuditEntry)
    (h : ¬ total = 0) :
    computeUniquenessScore total (some rs) log =
      if rs = [] then
        (100, log ++ [logRule "Uniqueness" "ALL" "Exact/Fuzzy Duplicate Check" total 0])
      else
        (round2 (qmax 0 (((total : ℚ) - ((min rs.dedup.length total : ℕ) : ℚ)) /
            (total : ℚ) * 100)),
         log ++ [logRule "Uniqueness" "ALL" "Exact/Fuzzy Duplicate Check" total
            (min rs.dedup.length total)]) := by
  unfold computeUniquenessScore
  rw [if_neg h]

/-- Claim C6 (corrected), counterexample to the claim as stated: with 3 total
rows and one distinct duplicate row id, the returned Uniqueness score is the
two-decimal value 66.67, which is not equal to 100 × (3 − 1) / 3; the code
rounds the claimed formula to two decimals. -/
theorem c6_counterexample :
    (computeUniquenessScore 3 (some [2]) []).1 = 6667 / 100 ∧
    ((6667 : ℚ) / 100) ≠ 100 * ((3 : ℚ) - 1) / 3 := by
  constructor
  · decide
  · decide

/-- Claim C6 (amended): for total_rows > 0, the Uniqueness score equals
100 × (total_rows − distinct_duplicate_row_count) / total_rows rounded
half-even to two decimals, where distinct_duplicate_row_count is the number of
distinct row ids among the flagged rows (a row flagged by several rules counts
once: the distinct count of the concatenated Row_Number list), capped at
total_rows. -/
theorem c6_theorem (total : ℕ) (dupRows : List ℕ) (log : List AuditEntry)
    (h : 0 < total) :
    (computeUniquenessScore total (some dupRows) log).1 =
      round2 (100 * ((total : ℚ) - (min dupRows.toFinset.card total : ℕ)) / (total : ℚ)) := by
  have h0 : ¬ total = 0 := by omega
  have hcard : dupRows.toFinset.card = dupRows.dedup.length := List.card_toFinset dupRows
  rw [computeUniqueness_some total dupRows log h0]
  by_cases hrs : dupRows = []
  · subst hrs
    rw [if_pos rfl]
    have htq : (0 : ℚ) < (total : ℚ) := by exact_mod_cast h
    simp only [List.toFinset_nil, Finset.card_empty, Nat.zero_min, Nat.cast_zero, sub_zero]
    rw [mul_div_assoc, div_self (ne_of_gt htq), mul_one]
    decide
  · rw [if_neg hrs, hcard]
    dsimp only
    rw [qmax_zero_score total (min dupRows.dedup.length total) h (Nat.min_le_right _ _)]

/-- Witness for C6, Scenario E of the spec: 100 total rows, exact rule flags
rows 1,2,3 and fuzzy rule flags rows 3,4,5; the distinct count is 5 and the
score is 100 × (100 − 5) / 100. -/
theorem c6_witness :
    (computeUniquenessScore 100 (some [1, 2, 3, 3, 4, 5]) []).1 =
      round2 (100 * ((100 : ℚ) - (min ([1, 2, 3, 3, 4, 5] : List ℕ).toFinset.card 100 : ℕ)) / 100) :=
  c6_theorem 100 [1, 2, 3, 3, 4, 5] [] (by decide)

/-- Claim C10 (confirmed): for a non-empty dataset, an empty or missing
duplicate-records input makes `compute_uniqueness_score` return exactly 100.0
and append one Uniqueness audit entry with evaluated = total rows and
failed = 0, so a clean uniqueness check is distinguishable from
"not evaluated". -/
theorem c10_theorem (total : ℕ) (log : List AuditEntry) (h : 0 < total) :
    computeUniquenessScore total none log =
      (100, log ++ [logRule "Uniqueness" "ALL" "Exact/Fuzzy Duplicate Check" total 0]) ∧
    computeUniquenessScore total (some []) log =
      (100, log ++ [logRule "Uniqueness" "ALL" "Exact/Fuzzy Duplicate Check" total 0]) ∧
    (logRule "Uniqueness" "ALL" "Exact/Fuzzy Duplicate Check" total 0).evaluated = total ∧
    (logRule "Uniqueness" "ALL" "Exact/Fuzzy Duplicate Check" total 0).failed = 0 := by
  refine ⟨?_, ?_, rfl, rfl⟩
  · unfold computeUniquenessScore
    rw [if_neg (by omega : ¬ total = 0)]
  · rw [computeUniqueness_some total [] log (by omega), if_pos rfl]

/-- Witness for C10 at a concrete input: 5 rows, no duplicate records, empty
log. -/
theorem c10_witness :
    computeUniquenessScore 5 none [] =
      (100, [logRule "Uniqueness" "ALL" "Exact/Fuzzy Duplicate Check" 5 0]) :=
  (c10_theorem 5 [] (by decide)).1

/-! ## Theorems for claims C1 and C8 (validity rules) -/

/-- Helper: round-tripping a valid code point through `Char.ofNat`. -/
theorem char_toNat_ofNat (n : ℕ) (h : n.isValidChar) : (Char.ofNat n).toNat = n := by
  simp only [Char.ofNat, dif_pos h, Char.ofNatAux, Char.toNat, UInt32.toNat]
  exact BitVec.toNat_ofNatLt _ _

/-- Helper: lowercasing after uppercasing is plain lowercasing (ASCII). -/
theorem char_toUpper_toLower (c : Char) : c.toUpper.toLower = c.toLower := by
  unfold Char.toUpper Char.toLower
  by_cases h : c.toNat ≥ 97 ∧ c.toNat ≤ 122
  · rw [if_pos h]
    have hv : (c.toNat - 32).isValidChar := by
      left
      omega
    have ht : (Char.ofNat (c.toNat - 32)).toNat = c.toNat - 32 := char_toNat_ofNat _ hv
    rw [ht]
    rw [if_pos (by omega : c.toNat - 32 ≥ 65 ∧ c.toNat - 32 ≤ 90),
        if_neg (by omega : ¬ (c.toNat ≥ 65 ∧ c.toNat ≤ 90))]
    have harith : c.toNat - 32 + 32 = c.toNat := by omega
    rw [harith, Char.ofNat_toNat]
  · rw [if_neg h]

/-- Helper: `lower(upper(s)) = lower(s)` on strings. -/
theorem pyLower_pyUpper (s : String) : pyLower (pyUpper s) = pyLower s := by
  unfold pyLower pyUpper
  have hmap : (s.data.map Char.toUpper).map Char.toLower = s.data.map Char.toLower := by
    rw [List.map_map]
    have hf : Char.toLower ∘ Char.toUpper = Char.toLower := funext char_toUpper_toLower
    rw [hf]
  exact congrArg String.mk hmap

/-- Helper: every validity rule that consults the `_is_empty_for_validity`
skip helper passes on a null-sentinel cell, for every date parser. -/
theorem validityCellPass_of_sentinel (E : ExtDate) (r : VRule) (v : String)
    (hr : usesValiditySkip r = true)
    (hv : isNullSentinel (pyLower (pyStrip v)) = true) :
    validityCellPass E r v = true := by
  have hempty : isEmptyForValidity (pyStrip v) = true := hv
  cases r with
  | emailFormat => simp [validityCellPass, hempty]
  | phoneFormat => simp [validityCellPass, hempty]
  | panFormat =>
      have hup : isEmptyForValidity (pyUpper (pyStrip v)) = true := by
        unfold isEmptyForValidity
        rw [pyLower_pyUpper]
        exact hv
      simp [validityCellPass, hup]
  | dataType t => simp [validityCellPass, hempty]
  | dateFormat fmt =>
      simp only [validityCellPass]
      split <;> simp [hempty]
  | numericRange a b => simp [validityCellPass, hempty]
  | allowedValues raw => simp [validityCellPass, hempty]
  | customRegex p =>
      simp only [validityCellPass]
      split <;> simp [hempty]
  | specialCharsNotAllowed p => simp [usesValiditySkip] at hr
  | lengthCheck m => simp [usesValiditySkip] at hr
  | formatCheck p => simp [usesValiditySkip] at hr

/-- Helper: a sentinel-valued row index is not among the failing indices of a
skip-aware rule. -/
theorem not_mem_validityFails (E : ExtDate) (df : Df) (col : String) (r : VRule)
    (hr : usesValiditySkip r = true) (i : ℕ)
    (hv : isNullSentinel (pyLower (pyStrip (df.cell i col))) = true) :
    i ∉ validityFails E df col r := by
  intro hmem
  unfold validityFails at hmem
  obtain ⟨ir, hirf, hir1⟩ := List.mem_map.mp hmem
  obtain ⟨hiren, hirp⟩ := List.mem_filter.mp hirf
  have hget : df.rows[ir.1]? = some ir.2 := by
    have := List.mk_mem_enum_iff_getElem?.mp (by
      have : (ir.1, ir.2) = ir := rfl
      rw [this]
      exact hiren)
    exact this
  have hrow : df.rows.getD ir.1 [] = ir.2 := by
    simp [List.getD_eq_getElem?_getD, hget]
  have hcell : df.cell ir.1 col = df.cellAt ir.2 col := by
    unfold Df.cell
    rw [hrow]
  have hpass : validityCellPass E r (df.cellAt ir.2 col) = true := by
    rw [← hcell]
    exact validityCellPass_of_sentinel E r _ hr (by rw [hir1]; exact hv)
  rw [hpass] at hirp
  simp at hirp

set_option maxRecDepth 20000 in
/-- Claim C1 (corrected), counterexample to the claim as stated: the Length
Check rule does not skip null-sentinel cells.  On a one-row dataset whose cell
is "missing" (a null sentinel), Length Check (max 3) counts the row as a
failure and emits a validity IssueRecord for it. -/
theorem c1_counterexample :
    isNullSentinel (pyLower (pyStrip "missing")) = true ∧
    (executeValidityRules extDateNone ⟨["c"], [["missing"]]⟩ [⟨"c", .lengthCheck 3⟩]).1 =
      [{ rowNumber := 2, columnName := "c", ruleApplied := "Length Check (max 3)",
         issueType := "Invalid Format", originalValue := "missing",
         expectedValue := "Length ≤ 3", dimension := "Validity" }] := by
  constructor
  · decide
  · decide

/-- Claim C1 (amended): for the validity rules that consult the
`_is_empty_for_validity` helper — Email Format, Phone Format, PAN Format,
Data Type, Date Format, Numeric Range, Allowed Values and Custom Regex — a
cell whose stripped, lowercased value is a null sentinel is treated as passing:
it is never among the failing row indices and never emitted as a validity
IssueRecord.  The three inline rules (Special Characters Not Allowed, Length
Check, Format Check) do not consult the helper (see the counterexample). -/
theorem c1_theorem (E : ExtDate) (df : Df) (col : String) (r : VRule)
    (hr : usesValiditySkip r = true) (i : ℕ)
    (hv : isNullSentinel (pyLower (pyStrip (df.cell i col))) = true) :
    i ∉ validityFails E df col r ∧
    ∀ rec ∈ (executeValidityRules E df [⟨col, r⟩]).1, rec.rowNumber ≠ i + 2 := by
  have hnot : i ∉ validityFails E df col r := not_mem_validityFails E df col r hr i hv
  refine ⟨hnot, ?_⟩
  intro rec hrec
  unfold executeValidityRules at hrec
  simp only [List.foldl] at hrec
  by_cases hguard : (df.cols.contains col && vRuleActive r) = true
  · rw [if_pos hguard] at hrec
    simp only [List.nil_append] at hrec
    unfold validityAnnex at hrec
    obtain ⟨j, hjf, hjrec⟩ := List.mem_map.mp hrec
    intro heq
    have : j = i := by
      have : rec.rowNumber = j + 2 := by rw [← hjrec]
      omega
    exact hnot (this ▸ hjf)
  · rw [if_neg hguard] at hrec
    simp at hrec

/-- Witness for C1 at a concrete input: a "nan" cell under Email Format is not
flagged. -/
theorem c1_witness :
    0 ∉ validityFails extDateNone ⟨["c"], [["nan"]]⟩ "c" .emailFormat ∧
    ∀ rec ∈ (executeValidityRules extDateNone ⟨["c"], [["nan"]]⟩ [⟨"c", .emailFormat⟩]).1,
      rec.rowNumber ≠ 0 + 2 :=
  c1_theorem extDateNone ⟨["c"], [["nan"]]⟩ "c" .emailFormat (by decide) 0 (by decide)

/-- Helper: a rule that passes on every cell has no failing rows. -/
theorem validityFails_nil (E : ExtDate) (df : Df) (col : String) (r : VRule)
    (hall : ∀ v, validityCellPass E r v = true) :
    validityFails E df col r = [] := by
  unfold validityFails
  have hfil : df.rows.enum.filter (fun ir => !(validityCellPass E r (df.cellAt ir.2 col))) = [] := by
    rw [List.filter_eq_nil_iff]
    intro ir _
    simp [hall (df.cellAt ir.2 col)]
  rw [hfil]
  rfl

/-- Helper: executing a single always-pass rule yields no issue records and
one audit entry with zero failures (or nothing when the column is absent). -/
theorem executeValidity_allpass (E : ExtDate) (df : Df) (col : String) (r : VRule)
    (hact : vRuleActive r = true)
    (hall : ∀ v, validityCellPass E r v = true) :
    executeValidityRules E df [⟨col, r⟩] =
      if df.cols.contains col then
        ([], [logRule "Validity" col (vRuleLabel r) df.nRows 0])
      else ([], []) := by
  have hf := validityFails_nil E df col r hall
  unfold executeValidityRules
  simp only [List.foldl]
  by_cases hc : df.cols.contains col = true
  · rw [if_pos (by rw [hc, hact]; rfl), if_pos hc]
    unfold validityAnnex
    rw [hf]
    simp
  · have hcf : df.cols.contains col = false := by
      revert hc
      cases df.cols.contains col <;> simp
    rw [if_neg (by rw [hcf]; simp), if_neg hc]

set_option maxRecDepth 20000 in
/-- Claim C8 (corrected), counterexample to the claim as stated: with the
syntactically invalid Custom Regex pattern "(" on a two-row dataset, the rule
is always-pass (no IssueRecords, failed = 0) and the run completes — but the
complete returned value of `execute_validity_rules` is just the issue list and
the audit entries: no configuration warning exists anywhere in it, and the
function has no warnings channel at all, contradicting "a configuration
warning is returned to the caller". -/
theorem c8_counterexample :
    reParse "(" = none ∧
    executeValidityRules extDateNone ⟨["c"], [["zzz"], ["ab"]]⟩ [⟨"c", .customRegex "("⟩] =
      ([], [logRule "Validity" "c" "Regex: (" 2 0]) := by
  constructor
  · decide
  · decide

/-- Claim C8 (amended): a Custom Regex rule whose pattern fails to compile
(`re.error`) evaluates as always-pass — zero IssueRecords and an audit entry
with failed = 0 — and the run continues normally; likewise a Data Type rule
with an unknown expected type.  However no configuration warning is returned:
the result consists of issue records and audit entries only. -/
theorem c8_theorem (E : ExtDate) (df : Df) (col : String) (p : String) (t : String)
    (hp : reParse p = none) (hpne : p ≠ "")
    (ht : t ≠ "numeric" ∧ t ≠ "integer" ∧ t ≠ "float" ∧ t ≠ "date") :
    executeValidityRules E df [⟨col, .customRegex p⟩] =
      (if df.cols.contains col then
        ([], [logRule "Validity" col (vRuleLabel (.customRegex p)) df.nRows 0])
      else ([], [])) ∧
    executeValidityRules E df [⟨col, .dataType t⟩] =
      (if df.cols.contains col then
        ([], [logRule "Validity" col (vRuleLabel (.dataType t)) df.nRows 0])
      else ([], [])) := by
  constructor
  · exact executeValidity_allpass E df col (.customRegex p)
      (by simp [vRuleActive, hpne])
      (fun v => by simp only [validityCellPass, hp])
  · exact executeValidity_allpass E df col (.dataType t)
      (by rfl)
      (fun v => by simp [validityCellPass, ht.1, ht.2.1, ht.2.2.1, ht.2.2.2])

/-- Witness for C8 at a concrete input: invalid pattern "(" and unknown data
type "text" on a one-row dataset. -/
theorem c8_witness :
    executeValidityRules extDateNone ⟨["c"], [["x y"]]⟩ [⟨"c", .customRegex "("⟩] =
      (if Df.cols ⟨["c"], [["x y"]]⟩ |>.contains "c" then
        ([], [logRule "Validity" "c" (vRuleLabel (.customRegex "(")) (Df.nRows ⟨["c"], [["x y"]]⟩) 0])
      else ([], [])) ∧
    executeValidityRules extDateNone ⟨["c"], [["x y"]]⟩ [⟨"c", .dataType "text"⟩] =
      (if Df.cols ⟨["c"], [["x y"]]⟩ |>.contains "c" then
        ([], [logRule "Validity" "c" (vRuleLabel (.dataType "text")) (Df.nRows ⟨["c"], [["x y"]]⟩) 0])
      else ([], [])) :=
  c8_theorem extDateNone ⟨["c"], [["x y"]]⟩ "c" "(" "text" (by decide) (by decide)
    (by refine ⟨?_, ?_, ?_, ?_⟩ <;> decide)

/-! ## Theorems for claim C9 (standardization) -/

/-- Helper: for the seven value transforms the changed flag holds exactly when
the cleaned value differs from the original. -/
theorem stdCell_flag_iff (F : ExtDateFmt) (r : SRule) (hr : flagIsChange r = true)
    (v : String) : (stdCell F r v).2 = true ↔ (stdCell F r v).1 ≠ v := by
  cases r with
  | replaceNullDefault d => simp [flagIsChange] at hr
  | trimSpaces => simp only [stdCell, bne_iff_ne]; exact ne_comm
  | removeExtraSpaces => simp only [stdCell, bne_iff_ne]; exact ne_comm
  | properCase => simp only [stdCell, bne_iff_ne]; exact ne_comm
  | lowercase => simp only [stdCell, bne_iff_ne]; exact ne_comm
  | uppercase => simp only [stdCell, bne_iff_ne]; exact ne_comm
  | removeSpecialChars => simp only [stdCell, bne_iff_ne]; exact ne_comm
  | normalizeDate fmt => simp only [stdCell, bne_iff_ne]; exact ne_comm

/-- Helper: unfolding of the standardization executor on a single entry whose
column is present. -/
theorem executeStd_single (F : ExtDateFmt) (df : Df) (col : String) (r : SRule)
    (hc : df.cols.contains col = true) :
    executeStandardizationRules F df [⟨col, r⟩] =
      (df.setCol col (stdNewCol F df col r), stdAnnex F df col r,
       [logRule "Standardization" col (sRuleLabel r) df.nRows (stdFails F df col r).length]) := by
  unfold executeStandardizationRules
  simp only [List.foldl]
  rw [if_pos hc]
  simp

/-- Helper: membership in the changed-row indices, for in-range rows. -/
theorem mem_stdFails_iff (F : ExtDateFmt) (df : Df) (col : String) (r : SRule)
    (i : ℕ) (hi : i < df.nRows) :
    i ∈ stdFails F df col r ↔ (stdCell F r (df.cell i col)).2 = true := by
  have hlen : i < df.rows.length := hi
  have hgetD : df.rows.getD i [] = df.rows[i] := by
    rw [List.getD_eq_getElem?_getD, List.getElem?_eq_getElem hlen]
    rfl
  have hsome : df.rows[i]? = some (df.rows.getD i []) := by
    rw [List.getElem?_eq_getElem hlen, hgetD]
  unfold stdFails
  constructor
  · intro hmem
    obtain ⟨ir, hirf, hir1⟩ := List.mem_map.mp hmem
    obtain ⟨hiren, hirp⟩ := List.mem_filter.mp hirf
    have hget : df.rows[ir.1]? = some ir.2 :=
      List.mk_mem_enum_iff_getElem?.mp (show (ir.1, ir.2) ∈ df.rows.enum from hiren)
    have hrow : df.rows.getD ir.1 [] = ir.2 := by
      rw [List.getD_eq_getElem?_getD, hget]
      rfl
    have hcell : df.cell ir.1 col = df.cellAt ir.2 col := by
      unfold Df.cell
      rw [hrow]
    rw [← hir1, hcell]
    exact hirp
  · intro hflag
    refine List.mem_map.mpr ⟨(i, df.rows.getD i []), List.mem_filter.mpr ⟨?_, ?_⟩, rfl⟩
    · exact List.mk_mem_enum_iff_getElem?.mpr hsome
    · exact hflag

set_option maxRecDepth 20000 in
/-- Claim C9 (corrected), counterexample to the claim as stated: Replace Null
with Default does not flag by cleaned-differs-from-original.  On the non-null
cell " x" the rule silently rewrites the stored value to its stripped form "x"
(cleaned differs from the original) yet sets no changed flag and emits no
IssueRecord. -/
theorem c9_counterexample :
    stdCell extDateFmtNone (.replaceNullDefault "N/A") " x" = ("x", false) ∧
    (executeStandardizationRules extDateFmtNone ⟨["c"], [[" x"]]⟩
        [⟨"c", .replaceNullDefault "N/A"⟩]).2.1 = [] ∧
    (executeStandardizationRules extDateFmtNone ⟨["c"], [[" x"]]⟩
        [⟨"c", .replaceNullDefault "N/A"⟩]).1.rows = [["x"]] ∧
    (" x" : String) ≠ "x" :=
  ⟨by decide, by decide, by decide, by decide⟩

/-- Claim C9 (amended): for TrimSpaces, RemoveExtraSpaces, ProperCase,
Lowercase, Uppercase, RemoveSpecialChars and NormalizeDate (any date parser),
a cell of an evaluated column is flagged — one IssueRecord with its row number
— if and only if the rule's cleaned value differs from the original value.
Replace Null with Default instead flags its null mask (stripped value empty,
"nan" or "none"): a non-null cell needing only stripping is rewritten without
a flag (see the counterexample). -/
theorem c9_theorem (F : ExtDateFmt) (df : Df) (col : String) (r : SRule)
    (hr : flagIsChange r = true) (hc : df.cols.contains col = true)
    (i : ℕ) (hi : i < df.nRows) :
    (∃ rec ∈ (executeStandardizationRules F df [⟨col, r⟩]).2.1, rec.rowNumber = i + 2) ↔
      (stdCell F r (df.cell i col)).1 ≠ df.cell i col := by
  rw [executeStd_single F df col r hc]
  constructor
  · rintro ⟨rec, hrec, hrn⟩
    obtain ⟨j, hj, hjrec⟩ := List.mem_map.mp hrec
    have hji : j = i := by
      have : rec.rowNumber = j + 2 := by rw [← hjrec]
      omega
    have hflag := (mem_stdFails_iff F df col r i hi).mp (hji ▸ hj)
    exact (stdCell_flag_iff F r hr _).mp hflag
  · intro hne
    have hflag : (stdCell F r (df.cell i col)).2 = true := (stdCell_flag_iff F r hr _).mpr hne
    have hmem : i ∈ stdFails F df col r := (mem_stdFails_iff F df col r i hi).mpr hflag
    exact ⟨_, List.mem_map_of_mem _ hmem, rfl⟩

/-- Witness for C9 at a concrete input: a " a" cell under Trim Spaces. -/
theorem c9_witness :
    (∃ rec ∈ (executeStandardizationRules extDateFmtNone ⟨["c"], [[" a"]]⟩
        [⟨"c", .trimSpaces⟩]).2.1, rec.rowNumber = 0 + 2) ↔
      (stdCell extDateFmtNone .trimSpaces (Df.cell ⟨["c"], [[" a"]]⟩ 0 "c")).1 ≠
        Df.cell ⟨["c"], [[" a"]]⟩ 0 "c" :=
  c9_theorem extDateFmtNone ⟨["c"], [[" a"]]⟩ "c" .trimSpaces (by decide) (by decide) 0
    (by decide)

/-! ## Helper lemmas for the duplicate-detection claims -/

/-- Helper: first-occurrence dedup over a seen set keeps exactly the unseen
elements. -/
theorem mem_dedupBy [BEq α] [LawfulBEq α] (l : List α) (seen : List α) (x : α) :
    x ∈ dedupBy l seen → x ∈ l := by
  induction l generalizing seen with
  | nil => intro h; simp [dedupBy] at h
  | cons y ys ih =>
      intro h
      unfold dedupBy at h
      by_cases hy : seen.contains y = true
      · rw [if_pos hy] at h
        exact List.mem_cons_of_mem y (ih _ h)
      · rw [if_neg hy] at h
        rcases List.mem_cons.mp h with h1 | h2
        · exact h1 ▸ List.mem_cons_self y ys
        · exact List.mem_cons_of_mem y (ih _ h2)

/-- Helper: an element of the list is in the dedup or was already seen. -/
theorem dedupBy_complete [BEq α] [LawfulBEq α] (l : List α) (seen : List α) (x : α)
    (hx : x ∈ l) : x ∈ dedupBy l seen ∨ x ∈ seen := by
  induction l generalizing seen with
  | nil => simp at hx
  | cons y ys ih =>
      unfold dedupBy
      by_cases hy : seen.contains y = true
      · rw [if_pos hy]
        rcases List.mem_cons.mp hx with h1 | h2
        · right
          rw [h1]
          simpa using hy
        · exact ih _ h2
      · rw [if_neg hy]
        rcases List.mem_cons.mp hx with h1 | h2
        · left
          rw [h1]
          exact List.mem_cons_self y _
        · rcases ih (y :: seen) h2 with h3 | h4
          · exact Or.inl (List.mem_cons_of_mem y h3)
          · rcases List.mem_cons.mp h4 with h5 | h6
            · exact Or.inl (h5 ▸ List.mem_cons_self y _)
            · exact Or.inr h6

/-- Helper: membership in a first-occurrence dedup is membership. -/
theorem mem_firstDedup [BEq α] [LawfulBEq α] (l : List α) (x : α) :
    x ∈ firstDedup l ↔ x ∈ l := by
  constructor
  · exact mem_dedupBy l [] x
  · intro hx
    rcases dedupBy_complete l [] x hx with h | h
    · exact h
    · simp at h

/-- Helper: both components of an ordered pair come from the list. -/
theorem pairsOf_mem {p : α × α} : ∀ {l : List α}, p ∈ pairsOf l → p.1 ∈ l ∧ p.2 ∈ l := by
  intro l
  induction l with
  | nil => intro h; simp [pairsOf] at h
  | cons x xs ih =>
      intro h
      unfold pairsOf at h
      rcases List.mem_append.mp h with h1 | h2
      · obtain ⟨y, hy, hxy⟩ := List.mem_map.mp h1
        rw [← hxy]
        exact ⟨List.mem_cons_self x xs, List.mem_cons_of_mem x hy⟩
      · obtain ⟨ha, hb⟩ := ih h2
        exact ⟨List.mem_cons_of_mem x ha, List.mem_cons_of_mem x hb⟩

/-- Helper: over a list with distinct mapped keys, ordered pairs have distinct
mapped keys. -/
theorem pairsOf_map_ne {f : α → β} {p : α × α} :
    ∀ {l : List α}, (l.map f).Nodup → p ∈ pairsOf l → f p.1 ≠ f p.2 := by
  intro l
  induction l with
  | nil => intro _ h; simp [pairsOf] at h
  | cons x xs ih =>
      intro hnd h
      rw [List.map_cons, List.nodup_cons] at hnd
      unfold pairsOf at h
      rcases List.mem_append.mp h with h1 | h2
      · obtain ⟨y, hy, hxy⟩ := List.mem_map.mp h1
        have h1' : p.1 = x := by rw [← hxy]
        have h2' : p.2 = y := by rw [← hxy]
        rw [h1', h2']
        intro heq
        exact hnd.1 (heq ▸ List.mem_map_of_mem f hy)
      · exact ih hnd.2 h2

/-- Helper: two members of a list with distinct mapped keys that agree on the
key are equal. -/
theorem nodup_map_eq {f : α → β} :
    ∀ {l : List α} {a b : α}, (l.map f).Nodup → a ∈ l → b ∈ l → f a = f b → a = b := by
  intro l
  induction l with
  | nil => intro a b _ ha; simp at ha
  | cons x xs ih =>
      intro a b hnd ha hb hf
      rw [List.map_cons, List.nodup_cons] at hnd
      rcases List.mem_cons.mp ha with ha1 | ha2
      · rcases List.mem_cons.mp hb with hb1 | hb2
        · rw [ha1, hb1]
        · exfalso
          apply hnd.1
          have hfb : f b ∈ xs.map f := List.mem_map_of_mem f hb2
          have hxb : f x = f b := by rw [← ha1]; exact hf
          rw [hxb]
          exact hfb
      · rcases List.mem_cons.mp hb with hb1 | hb2
        · exfalso
          apply hnd.1
          have hfa : f a ∈ xs.map f := List.mem_map_of_mem f ha2
          have hxa : f x = f a := by rw [← hb1]; exact hf.symm
          rw [hxa]
          exact hfa
        · exact ih hnd.2 ha2 hb2 hf

/-- Helper: a list containing two distinct elements has length at least 2. -/
theorem two_le_length_of_mem_ne {a b : α} :
    ∀ {l : List α}, a ∈ l → b ∈ l → a ≠ b → 2 ≤ l.length := by
  intro l
  induction l with
  | nil => intro ha; simp at ha
  | cons x xs ih =>
      intro ha hb hne
      rcases List.mem_cons.mp ha with ha1 | ha2
      · rcases List.mem_cons.mp hb with hb1 | hb2
        · exact absurd (ha1.trans hb1.symm) hne
        · have : 0 < xs.length := List.length_pos_of_mem hb2
          simp only [List.length_cons]
          omega
      · have : 0 < xs.length := List.length_pos_of_mem ha2
        simp only [List.length_cons]
        omega

/-- Helper: a row of the enumerated list is the row at its index. -/
theorem enum_getD (df : Df) (ir : ℕ × List String) (h : ir ∈ df.rows.enum) :
    df.rows.getD ir.1 [] = ir.2 := by
  have hget : df.rows[ir.1]? = some ir.2 :=
    List.mk_mem_enum_iff_getElem?.mp (show (ir.1, ir.2) ∈ df.rows.enum from h)
  rw [List.getD_eq_getElem?_getD, hget]
  rfl

/-- Helper: cell access through an enumerated row equals positional access. -/
theorem enum_cellAt (df : Df) (ir : ℕ × List String) (h : ir ∈ df.rows.enum)
    (col : String) : df.cellAt ir.2 col = df.cell ir.1 col := by
  unfold Df.cell
  rw [enum_getD df ir h]

/-! ## Disjoint-set lemmas -/

/-- Helper: after a union, the two merged elements have one root. -/
theorem dsuUnion_self_eq (root : ℕ → ℕ) (x y : ℕ) :
    dsuUnion root x y x = dsuUnion root x y y := by
  by_cases h : root x = root y
  · simp only [dsuUnion, if_pos h]
    exact h
  · simp only [dsuUnion, if_neg h]
    simp

/-- Helper: a union preserves root equality. -/
theorem dsuUnion_congr (root : ℕ → ℕ) (x y a b : ℕ) (h : root a = root b) :
    dsuUnion root x y a = dsuUnion root x y b := by
  by_cases hxy : root x = root y
  · simp only [dsuUnion, if_pos hxy]
    exact h
  · simp only [dsuUnion, if_neg hxy, h]

/-- Helper: folding unions preserves root equality. -/
theorem dsuFold_congr (L : List MatchRec) :
    ∀ (root : ℕ → ℕ) (a b : ℕ), root a = root b →
      (L.foldl (fun r m => dsuUnion r m.i m.j) root) a =
      (L.foldl (fun r m => dsuUnion r m.i m.j) root) b := by
  induction L with
  | nil => intro root a b h; exact h
  | cons m t ih =>
      intro root a b h
      exact ih _ a b (dsuUnion_congr root m.i m.j a b h)

/-- Helper: after folding the unions of a pair list, each pair shares a
root. -/
theorem dsuFold_pair (L : List MatchRec) :
    ∀ (root : ℕ → ℕ) (m : MatchRec), m ∈ L →
      (L.foldl (fun r x => dsuUnion r x.i x.j) root) m.i =
      (L.foldl (fun r x => dsuUnion r x.i x.j) root) m.j := by
  induction L with
  | nil => intro root m h; simp at h
  | cons h t ih =>
      intro root m hm
      rcases List.mem_cons.mp hm with h1 | h2
      · subst h1
        exact dsuFold_congr t _ m.i m.j (dsuUnion_self_eq root m.i m.j)
      · exact ih _ m h2

/-- Helper: insertion keeps membership. -/
theorem mem_insertMatch (m x : MatchRec) :
    ∀ (l : List MatchRec), x ∈ insertMatch m l ↔ x = m ∨ x ∈ l := by
  intro l
  induction l with
  | nil => simp [insertMatch]
  | cons y ys ih =>
      unfold insertMatch
      by_cases h : decide (y.score < m.score) = true
      · rw [if_pos h]
        simp [List.mem_cons]
      · rw [if_neg h]
        rw [List.mem_cons, ih, List.mem_cons]
        tauto

/-- Helper: the descending sort keeps membership. -/
theorem mem_sortMatchesDesc (ms : List MatchRec) (m : MatchRec) :
    m ∈ sortMatchesDesc ms ↔ m ∈ ms := by
  unfold sortMatchesDesc
  induction ms with
  | nil => simp
  | cons x xs ih =>
      simp only [List.foldr_cons, List.mem_cons]
      rw [mem_insertMatch, ih]

/-- Helper: every accepted pair ends with a common root. -/
theorem dsuOfMatches_pair (ms : List MatchRec) (m : MatchRec) (hm : m ∈ ms) :
    dsuOfMatches ms m.i = dsuOfMatches ms m.j := by
  unfold dsuOfMatches
  exact dsuFold_pair _ id m ((mem_sortMatchesDesc ms m).mpr hm)

/-! ## Structural lemmas about the fuzzy pipeline -/

/-- Helper: working rows come from the enumerated rows. -/
theorem fuzzyWork_mem_enum (df : Df) (cols : List String) (ign : Bool)
    (ir : ℕ × List String) (h : ir ∈ fuzzyWork df cols ign) : ir ∈ df.rows.enum := by
  unfold fuzzyWork at h
  by_cases hi : ign = true
  · rw [if_pos hi] at h
    exact (List.mem_filter.mp h).1
  · rw [if_neg hi] at h
    exact h

/-- Helper: with ignore-nulls on, every working row passes the null filter. -/
theorem fuzzyWork_valid (df : Df) (cols : List String) (ir : ℕ × List String)
    (h : ir ∈ fuzzyWork df cols true) : fuzzyValidRow df cols ir.2 = true := by
  unfold fuzzyWork at h
  rw [if_pos rfl] at h
  exact (List.mem_filter.mp h).2

/-- Helper: keyed rows are working rows. -/
theorem fuzzyKeyed_sub_work (df : Df) (cols : List String) (ign : Bool)
    (x : ℕ × List String) (h : x ∈ fuzzyKeyed df cols ign) : x ∈ fuzzyWork df cols ign :=
  (List.mem_filter.mp h).1

/-- Helper: the keyed rows are a sublist of the enumerated rows. -/
theorem fuzzyKeyed_sublist (df : Df) (cols : List String) (ign : Bool) :
    List.Sublist (fuzzyKeyed df cols ign) df.rows.enum := by
  have h1 : List.Sublist (fuzzyKeyed df cols ign) (fuzzyWork df cols ign) :=
    List.filter_sublist _
  have h2 : List.Sublist (fuzzyWork df cols ign) df.rows.enum := by
    unfold fuzzyWork
    by_cases hi : ign = true
    · rw [if_pos hi]
      exact List.filter_sublist _
    · rw [if_neg hi]
  exact h1.trans h2

/-- Helper: keyed-row indices are distinct. -/
theorem fuzzyKeyed_fst_nodup (df : Df) (cols : List String) (ign : Bool) :
    ((fuzzyKeyed df cols ign).map Prod.fst).Nodup := by
  have hsub : List.Sublist ((fuzzyKeyed df cols ign).map Prod.fst)
      (df.rows.enum.map Prod.fst) := List.Sublist.map _ (fuzzyKeyed_sublist df cols ign)
  have hnd : (df.rows.enum.map Prod.fst).Nodup := by
    rw [List.enum_map_fst]
    exact List.nodup_range _
  exact List.Nodup.sublist hsub hnd

/-- Helper: the shape of a block: its rows are the keyed rows carrying its
key. -/
theorem block_shape (df : Df) (cols : List String) (ign : Bool)
    (b : String × List (ℕ × List String)) (hb : b ∈ fuzzyBlocks df cols ign) :
    b.2 = (fuzzyKeyed df cols ign).filter (fun ir => blockKey df cols ir.2 = b.1) := by
  unfold fuzzyBlocks at hb
  obtain ⟨k, _, hkb⟩ := List.mem_map.mp hb
  rw [← hkb]

/-- Helper: block rows are keyed rows. -/
theorem block_sub_keyed (df : Df) (cols : List String) (ign : Bool)
    (b : String × List (ℕ × List String)) (hb : b ∈ fuzzyBlocks df cols ign)
    (x : ℕ × List String) (hx : x ∈ b.2) : x ∈ fuzzyKeyed df cols ign := by
  rw [block_shape df cols ign b hb] at hx
  exact (List.mem_filter.mp hx).1

/-- Helper: block-row indices are distinct. -/
theorem block_fst_nodup (df : Df) (cols : List String) (ign : Bool)
    (b : String × List (ℕ × List String)) (hb : b ∈ fuzzyBlocks df cols ign) :
    (b.2.map Prod.fst).Nodup := by
  rw [block_shape df cols ign b hb]
  exact List.Nodup.sublist (List.Sublist.map _ (List.filter_sublist _))
    (fuzzyKeyed_fst_nodup df cols ign)

/-- Helper: a row index lies in at most one block. -/
theorem block_unique (df : Df) (cols : List String) (ign : Bool)
    (b b' : String × List (ℕ × List String))
    (hb : b ∈ fuzzyBlocks df cols ign) (hb' : b' ∈ fuzzyBlocks df cols ign)
    (i : ℕ) (r r' : List String) (hr : (i, r) ∈ b.2) (hr' : (i, r') ∈ b'.2) :
    b = b' := by
  have hks := block_shape df cols ign b hb
  have hks' := block_shape df cols ign b' hb'
  have hrk : (i, r) ∈ fuzzyKeyed df cols ign := block_sub_keyed df cols ign b hb _ hr
  have hrk' : (i, r') ∈ fuzzyKeyed df cols ign := block_sub_keyed df cols ign b' hb' _ hr'
  have heqrow : ((i, r) : ℕ × List String) = (i, r') :=
    nodup_map_eq (fuzzyKeyed_fst_nodup df cols ign) hrk hrk' rfl
  have hrr : r = r' := by injection heqrow
  have hkey1 : blockKey df cols r = b.1 := by
    rw [hks] at hr
    have := (List.mem_filter.mp hr).2
    simpa using this
  have hkey2 : blockKey df cols r' = b'.1 := by
    rw [hks'] at hr'
    have := (List.mem_filter.mp hr').2
    simpa using this
  have hfst : b.1 = b'.1 := by rw [← hkey1, hrr, hkey2]
  have hsnd : b.2 = b'.2 := by rw [hks, hks', hfst]
  exact Prod.ext hfst hsnd

/-- Helper: an accepted pair comes from an in-cap block of size at least 2,
as an ordered pair of that block. -/
theorem fuzzyMatches_block (df : Df) (cols : List String) (weights : List ℚ)
    (threshold : ℚ) (cap : ℕ) (ign : Bool) (m : MatchRec)
    (hm : m ∈ fuzzyMatches df cols weights threshold cap ign) :
    ∃ b ∈ fuzzyBlocks df cols ign, 2 ≤ b.2.length ∧ blockPairCount b.2.length ≤ cap ∧
      ∃ ab ∈ pairsOf b.2, m.i = ab.1.1 ∧ m.j = ab.2.1 := by
  unfold fuzzyMatches at hm
  obtain ⟨b, hbmem, hmin⟩ := List.mem_flatMap.mp hm
  by_cases hlen : b.2.length < 2
  · rw [if_pos hlen] at hmin
    simp at hmin
  · rw [if_neg hlen] at hmin
    by_cases hcap : blockPairCount b.2.length ≤ cap
    · rw [if_pos hcap] at hmin
      unfold scoredPairs at hmin
      obtain ⟨ab, habmem, habeq⟩ := List.mem_filterMap.mp hmin
      refine ⟨b, hbmem, by omega, hcap, ab, habmem, ?_, ?_⟩
      · by_cases hsc : threshold ≤ hybridRowScore df ab.1.2 ab.2.2 cols weights
        · rw [if_pos hsc] at habeq
          injection habeq with h1
          rw [← h1]
        · rw [if_neg hsc] at habeq
          simp at habeq
      · by_cases hsc : threshold ≤ hybridRowScore df ab.1.2 ab.2.2 cols weights
        · rw [if_pos hsc] at habeq
          injection habeq with h1
          rw [← h1]
        · rw [if_neg hsc] at habeq
          simp at habeq
    · rw [if_neg hcap] at hmin
      simp at hmin

/-- Helper: an accepted pair has distinct endpoints. -/
theorem fuzzyMatches_ne (df : Df) (cols : List String) (weights : List ℚ)
    (threshold : ℚ) (cap : ℕ) (ign : Bool) (m : MatchRec)
    (hm : m ∈ fuzzyMatches df cols weights threshold cap ign) : m.i ≠ m.j := by
  obtain ⟨b, hb, _, _, ab, habmem, hi, hj⟩ :=
    fuzzyMatches_block df cols weights threshold cap ign m hm
  rw [hi, hj]
  exact pairsOf_map_ne (block_fst_nodup df cols ign b hb) habmem

/-- Helper: an accepted pair endpoint carries a row of an in-cap block. -/
theorem fuzzyMatches_endpoint_block (df : Df) (cols : List String) (weights : List ℚ)
    (threshold : ℚ) (cap : ℕ) (ign : Bool) (m : MatchRec)
    (hm : m ∈ fuzzyMatches df cols weights threshold cap ign) (x : ℕ)
    (hx : m.i = x ∨ m.j = x) :
    ∃ b ∈ fuzzyBlocks df cols ign, blockPairCount b.2.length ≤ cap ∧
      ∃ r, (x, r) ∈ b.2 := by
  obtain ⟨b, hb, _, hcap, ab, habmem, hi, hj⟩ :=
    fuzzyMatches_block df cols weights threshold cap ign m hm
  obtain ⟨hab1, hab2⟩ := pairsOf_mem habmem
  rcases hx with h | h
  · refine ⟨b, hb, hcap, ab.1.2, ?_⟩
    have : ab.1 = (x, ab.1.2) := by
      rw [← h, hi]
    rw [← this]
    exact hab1
  · refine ⟨b, hb, hcap, ab.2.2, ?_⟩
    have : ab.2 = (x, ab.2.2) := by
      rw [← h, hj]
    rw [← this]
    exact hab2

/-- Helper: members of a returned group are matched row indices. -/
theorem groups_mem_matched (df : Df) (cols : List String) (weights : List ℚ)
    (threshold : ℚ) (cap : ℕ) (ign : Bool) (g : List ℕ × ℚ)
    (hg : g ∈ fuzzyGroups df cols weights threshold cap ign) (x : ℕ) (hx : x ∈ g.1) :
    ∃ m ∈ fuzzyMatches df cols weights threshold cap ign, m.i = x ∨ m.j = x := by
  unfold fuzzyGroups at hg
  obtain ⟨rt, _, hrteq⟩ := List.mem_filterMap.mp hg
  dsimp only at hrteq
  split at hrteq
  · simp at hrteq
  · have hg1 : g.1 = (allMatched (fuzzyMatches df cols weights threshold cap ign)).filter
        (fun y => dsuOfMatches (fuzzyMatches df cols weights threshold cap ign) y = rt) := by
      rw [← Option.some_inj.mp hrteq]
    rw [hg1] at hx
    have hxm : x ∈ allMatched (fuzzyMatches df cols weights threshold cap ign) :=
      (List.mem_filter.mp hx).1
    unfold allMatched at hxm
    have := (mem_firstDedup _ x).mp hxm
    rcases List.mem_append.mp this with h1 | h2
    · obtain ⟨m, hmm, hmx⟩ := List.mem_map.mp h1
      exact ⟨m, hmm, Or.inl hmx⟩
    · obtain ⟨m, hmm, hmx⟩ := List.mem_map.mp h2
      exact ⟨m, hmm, Or.inr hmx⟩

/-! ## Theorems for claims C2, C4, C5, C7 (duplicate detection) -/

set_option maxRecDepth 40000 in
/-- Claim C2 (corrected), counterexample to the claim as stated: the
both-Absent and one-Absent short-circuits of `_hybrid_cell_score` test for
the empty string only, not for the null-sentinel set.  "none" and "null" are
both null sentinels yet score 28 (the ensemble value: ratio 25, partial 40
via the boundary prefix window, token-sort 25, token-set 25), not 100; "nan"
is a null sentinel and "n" is not, yet the pair scores 60, not 0. -/
theorem c2_counterexample :
    isNullSentinel (normCell "none") = true ∧ isNullSentinel (normCell "null") = true ∧
    hybridCellScore "none" "null" = 28 ∧ (28 : ℚ) ≠ 100 ∧
    isNullSentinel (normCell "nan") = true ∧ isNullSentinel (normCell "n") = false ∧
    hybridCellScore "nan" "n" = 60 ∧ (60 : ℚ) ≠ 0 :=
  ⟨by decide, by decide, by decide, by decide, by decide, by decide, by decide, by decide⟩

/-- Claim C2 (amended): the hybrid cell similarity score is 100 when the
normalised (trimmed, lowercased) values are equal, 100 when both normalised
values are the empty string, and 0 when exactly one of them is the empty
string; null sentinels other than the empty string are scored by the ensemble
like ordinary strings (see the counterexample). -/
theorem c2_theorem (a b : String) :
    (normCell a = normCell b → hybridCellScore a b = 100) ∧
    (normCell a = "" ∧ normCell b = "" → hybridCellScore a b = 100) ∧
    (normCell a = "" → normCell b ≠ "" → hybridCellScore a b = 0) ∧
    (normCell a ≠ "" → normCell b = "" → hybridCellScore a b = 0) := by
  refine ⟨?_, ?_, ?_, ?_⟩
  · intro h
    simp only [hybridCellScore]
    rw [if_pos h]
  · intro h
    simp only [hybridCellScore]
    rw [if_pos (h.1.trans h.2.symm)]
  · intro ha hb
    simp only [hybridCellScore]
    have h1 : ¬ (normCell a = normCell b) := fun heq => hb (heq.symm.trans ha)
    rw [if_neg h1, if_neg (fun hand => hb hand.2), if_pos (Or.inl ha)]
  · intro ha hb
    simp only [hybridCellScore]
    have h1 : ¬ (normCell a = normCell b) := fun heq => ha (heq.trans hb)
    rw [if_neg h1, if_neg (fun hand => ha hand.1), if_pos (Or.inr hb)]

/-- Witness for C2 at concrete inputs: equal-after-normalisation strings score
100, and an empty versus non-empty pair scores 0. -/
theorem c2_witness :
    hybridCellScore "Acme Corp" " acme corp " = 100 ∧ hybridCellScore "" "x" = 0 := by
  constructor
  · exact (c2_theorem _ _).1 (by decide)
  · exact (c2_theorem _ _).2.2.1 (by decide) (by decide)

/-- Helper: the groups returned by the wrapper, for a present weights list of
the right length. -/
theorem detectFuzzy_groups_some (df : Df) (cols : List String) (threshold : ℚ)
    (weights : List ℚ) (cap : ℕ) (ign : Bool)
    (hcols : cols ≠ []) (hw : weights.length = cols.length) :
    (detectFuzzyDuplicates df cols threshold (some weights) cap ign).groups =
      fuzzyGroups df cols weights threshold cap ign := by
  unfold detectFuzzyDuplicates
  rw [if_neg hcols]
  dsimp only
  rw [if_pos hw]

/-- Helper: the groups returned by the wrapper are the groups for some
resolved weights list. -/
theorem detectFuzzy_groups_any (df : Df) (cols : List String) (threshold : ℚ)
    (weightsOpt : Option (List ℚ)) (cap : ℕ) (ign : Bool) (hcols : cols ≠ []) :
    ∃ weights, (detectFuzzyDuplicates df cols threshold weightsOpt cap ign).groups =
      fuzzyGroups df cols weights threshold cap ign := by
  unfold detectFuzzyDuplicates
  rw [if_neg hcols]
  exact ⟨_, rfl⟩

/-- Helper: a row all of whose monitored (present) columns are null sentinels
never reaches a fuzzy group when ignore-nulls is on. -/
theorem fuzzyGroups_sentinel_free (df : Df) (cols : List String) (weights : List ℚ)
    (threshold : ℚ) (cap : ℕ) (i : ℕ)
    (hcols : cols ≠ []) (hpresent : ∀ c ∈ cols, df.cols.contains c = true)
    (hsent : ∀ c ∈ cols, isNullSentinel (normCell (df.cell i c)) = true) :
    ∀ g ∈ fuzzyGroups df cols weights threshold cap true, i ∉ g.1 := by
  intro g hg hig
  obtain ⟨m, hmm, hend⟩ :=
    groups_mem_matched df cols weights threshold cap true g hg i hig
  obtain ⟨b, hbm, _, r, hrb⟩ :=
    fuzzyMatches_endpoint_block df cols weights threshold cap true m hmm i hend
  have hkeyed : (i, r) ∈ fuzzyKeyed df cols true := block_sub_keyed df cols true b hbm _ hrb
  have hwork : (i, r) ∈ fuzzyWork df cols true := fuzzyKeyed_sub_work df cols true _ hkeyed
  have hvalid : fuzzyValidRow df cols r = true := fuzzyWork_valid df cols (i, r) hwork
  have henum : ((i, r) : ℕ × List String) ∈ df.rows.enum :=
    fuzzyWork_mem_enum df cols true (i, r) hwork
  obtain ⟨c0, hc0⟩ := List.exists_mem_of_ne_nil cols hcols
  have hall := List.all_eq_true.mp hvalid c0 hc0
  rw [if_pos (hpresent c0 hc0)] at hall
  have hcell : df.cellAt r c0 = df.cell i c0 := enum_cellAt df (i, r) henum c0
  rw [hcell, hsent c0 hc0] at hall
  simp at hall

/-- Claim C4 (amended): a row whose monitored columns all normalise into the
null-sentinel set is never a member of a duplicate group for single-column
exact match, for combination exact match, and for hybrid fuzzy match with the
ignore-nulls flag on (its default); with the flag off such rows can be grouped
(see the counterexample). -/
theorem c4_theorem :
    (∀ (df : Df) (col : String) (i g : ℕ),
      isNullSentinel (normCell (df.cell i col)) = true →
      (i, g) ∉ detectExactSingle df col) ∧
    (∀ (df : Df) (cols : List String) (i g : ℕ),
      (∀ c ∈ cols, isNullSentinel (normCell (df.cell i c)) = true) →
      (i, g) ∉ detectExactCombination df cols) ∧
    (∀ (df : Df) (cols : List String) (threshold : ℚ) (weightsOpt : Option (List ℚ))
      (cap : ℕ) (i : ℕ),
      cols ≠ [] → (∀ c ∈ cols, df.cols.contains c = true) →
      (∀ c ∈ cols, isNullSentinel (normCell (df.cell i c)) = true) →
      ∀ g ∈ (detectFuzzyDuplicates df cols threshold weightsOpt cap true).groups,
        i ∉ g.1) := by
  refine ⟨?_, ?_, ?_⟩
  · intro df col i g hsent hmem
    unfold detectExactSingle at hmem
    obtain ⟨x, hx, hxeq⟩ := List.mem_map.mp hmem
    have hx1 : x.1 = i := by
      have := congrArg Prod.fst hxeq
      simpa using this
    have hxvalid := (List.mem_filter.mp hx).1
    have hxs := (List.mem_filter.mp hxvalid).1
    have hxns := (List.mem_filter.mp hxvalid).2
    obtain ⟨ir, hir, hirx⟩ := List.mem_map.mp hxs
    have hx2 : x.2 = normCell (df.cell i col) := by
      rw [← hirx] at hx1 ⊢
      dsimp only
      rw [enum_cellAt df ir hir col]
      rw [hx1]
    rw [hx2, hsent] at hxns
    simp at hxns
  · intro df cols i g hsent hmem
    unfold detectExactCombination at hmem
    obtain ⟨x, hx, hxeq⟩ := List.mem_map.mp hmem
    have hx1 : x.1 = i := by
      have := congrArg Prod.fst hxeq
      simpa using this
    have hxkeyed := (List.mem_filter.mp hx).1
    obtain ⟨y, hyvalid, hyx⟩ := List.mem_map.mp hxkeyed
    have hyv := (List.mem_filter.mp hyvalid).2
    obtain ⟨ir, hir, hiry⟩ := List.mem_map.mp (List.mem_filter.mp hyvalid).1
    have hy1 : y.1 = ir.1 := by rw [← hiry]
    have hiri : ir.1 = i := by
      rw [← hx1, ← hyx]
      dsimp only
      rw [hy1]
    have hy2 : y.2 = cols.map (fun c => normCell (df.cell i c)) := by
      rw [← hiry]
      dsimp only
      refine List.map_congr_left (fun c hc => ?_)
      rw [enum_cellAt df ir hir c, hiri]
    rw [hy2] at hyv
    have : (cols.map (fun c => normCell (df.cell i c))).all (fun v => isNullSentinel v)
        = true := by
      rw [List.all_eq_true]
      intro v hv
      obtain ⟨c, hc, hcv⟩ := List.mem_map.mp hv
      rw [← hcv]
      exact hsent c hc
    rw [this] at hyv
    simp at hyv
  · intro df cols threshold weightsOpt cap i hcols hpresent hsent g hg
    obtain ⟨w, hweq⟩ :=
      detectFuzzy_groups_any df cols threshold weightsOpt cap true hcols
    rw [hweq] at hg
    exact fuzzyGroups_sentinel_free df cols w threshold cap i hcols hpresent hsent g hg

set_option maxRecDepth 40000 in
/-- Claim C4 counterexample: with the ignore-nulls flag off, two rows whose
only monitored column is the null sentinel "nan" are placed together in a
fuzzy duplicate group (they block together on "na" and score 100 via the
equal-strings short-circuit). -/
theorem c4_counterexample :
    isNullSentinel (normCell "nan") = true ∧
    detectFuzzyDuplicates ⟨["c"], [["nan"], ["nan"]]⟩ ["c"] 80 none 20000 false =
      ⟨[([0, 1], 100)], []⟩ :=
  ⟨by decide, by decide⟩

set_option maxRecDepth 40000 in
/-- Witness for C4 at concrete inputs: all-sentinel rows are excluded from
exact single, exact combination, and fuzzy (ignore-nulls on) results. -/
theorem c4_witness :
    (0, 1) ∉ detectExactSingle ⟨["c"], [["nan"], ["nan"]]⟩ "c" ∧
    (0, 1) ∉ detectExactCombination ⟨["a", "b"], [["nan", ""], ["nan", ""]]⟩ ["a", "b"] ∧
    ∀ g ∈ (detectFuzzyDuplicates ⟨["c"], [["nan"], ["nan"]]⟩ ["c"] 80 none 20000 true).groups,
      0 ∉ g.1 :=
  ⟨c4_theorem.1 ⟨["c"], [["nan"], ["nan"]]⟩ "c" 0 1 (by decide),
   c4_theorem.2.1 ⟨["a", "b"], [["nan", ""], ["nan", ""]]⟩ ["a", "b"] 0 1 (by decide),
   c4_theorem.2.2 ⟨["c"], [["nan"], ["nan"]]⟩ ["c"] 80 none 20000 0 (by decide) (by decide)
     (by decide)⟩

/-- Helper: every root class of size at least 2 yields a returned group. -/
theorem mem_fuzzyGroups_of (df : Df) (cols : List String) (weights : List ℚ)
    (threshold : ℚ) (cap : ℕ) (ign : Bool) (rt : ℕ)
    (hrt : rt ∈ firstDedup ((allMatched (fuzzyMatches df cols weights threshold cap ign)).map
      (dsuOfMatches (fuzzyMatches df cols weights threshold cap ign))))
    (hlen : ¬ ((allMatched (fuzzyMatches df cols weights threshold cap ign)).filter
      (fun x => dsuOfMatches (fuzzyMatches df cols weights threshold cap ign) x = rt)).length < 2) :
    ((allMatched (fuzzyMatches df cols weights threshold cap ign)).filter
      (fun x => dsuOfMatches (fuzzyMatches df cols weights threshold cap ign) x = rt),
     listMaxQ (((fuzzyMatches df cols weights threshold cap ign).filter (fun m =>
        ((allMatched (fuzzyMatches df cols weights threshold cap ign)).filter
          (fun x => dsuOfMatches (fuzzyMatches df cols weights threshold cap ign) x = rt)).contains m.i &&
        ((allMatched (fuzzyMatches df cols weights threshold cap ign)).filter
          (fun x => dsuOfMatches (fuzzyMatches df cols weights threshold cap ign) x = rt)).contains m.j)).map
        (fun m => m.score)) threshold) ∈
      fuzzyGroups df cols weights threshold cap ign := by
  unfold fuzzyGroups
  refine List.mem_filterMap.mpr ⟨rt, hrt, ?_⟩
  dsimp only
  rw [if_neg hlen]

/-- Claim C5 (confirmed): if the pairs A~B and B~C are both accepted (compared
and at or above the threshold), then the returned result has one group
containing A, B and C — fuzzy group membership is transitively closed over
accepted pairs, regardless of the score of A~C. -/
theorem c5_theorem (df : Df) (cols : List String) (threshold : ℚ) (weights : List ℚ)
    (cap : ℕ) (ign : Bool) (hcols : cols ≠ []) (hw : weights.length = cols.length)
    (A B C : ℕ) (m1 m2 : MatchRec)
    (h1 : m1 ∈ fuzzyMatches df cols weights threshold cap ign)
    (h2 : m2 ∈ fuzzyMatches df cols weights threshold cap ign)
    (hm1 : m1.i = A ∧ m1.j = B ∨ m1.i = B ∧ m1.j = A)
    (hm2 : m2.i = B ∧ m2.j = C ∨ m2.i = C ∧ m2.j = B) :
    ∃ g ∈ (detectFuzzyDuplicates df cols threshold (some weights) cap ign).groups,
      A ∈ g.1 ∧ B ∈ g.1 ∧ C ∈ g.1 := by
  rw [detectFuzzy_groups_some df cols threshold weights cap ign hcols hw]
  have hAB : dsuOfMatches (fuzzyMatches df cols weights threshold cap ign) A =
      dsuOfMatches (fuzzyMatches df cols weights threshold cap ign) B := by
    rcases hm1 with ⟨hi, hj⟩ | ⟨hi, hj⟩
    · rw [← hi, ← hj]
      exact dsuOfMatches_pair _ m1 h1
    · rw [← hi, ← hj]
      exact (dsuOfMatches_pair _ m1 h1).symm
  have hBC : dsuOfMatches (fuzzyMatches df cols weights threshold cap ign) B =
      dsuOfMatches (fuzzyMatches df cols weights threshold cap ign) C := by
    rcases hm2 with ⟨hi, hj⟩ | ⟨hi, hj⟩
    · rw [← hi, ← hj]
      exact dsuOfMatches_pair _ m2 h2
    · rw [← hi, ← hj]
      exact (dsuOfMatches_pair _ m2 h2).symm
  have hAm : A ∈ allMatched (fuzzyMatches df cols weights threshold cap ign) := by
    unfold allMatched
    rw [mem_firstDedup]
    rcases hm1 with ⟨hi, _⟩ | ⟨_, hj⟩
    · exact List.mem_append.mpr (Or.inl (hi ▸ List.mem_map_of_mem _ h1))
    · exact List.mem_append.mpr (Or.inr (hj ▸ List.mem_map_of_mem _ h1))
  have hBm : B ∈ allMatched (fuzzyMatches df cols weights threshold cap ign) := by
    unfold allMatched
    rw [mem_firstDedup]
    rcases hm1 with ⟨_, hj⟩ | ⟨hi, _⟩
    · exact List.mem_append.mpr (Or.inr (hj ▸ List.mem_map_of_mem _ h1))
    · exact List.mem_append.mpr (Or.inl (hi ▸ List.mem_map_of_mem _ h1))
  have hCm : C ∈ allMatched (fuzzyMatches df cols weights threshold cap ign) := by
    unfold allMatched
    rw [mem_firstDedup]
    rcases hm2 with ⟨_, hj⟩ | ⟨hi, _⟩
    · exact List.mem_append.mpr (Or.inr (hj ▸ List.mem_map_of_mem _ h2))
    · exact List.mem_append.mpr (Or.inl (hi ▸ List.mem_map_of_mem _ h2))
  have hABne : A ≠ B := by
    have hne := fuzzyMatches_ne df cols weights threshold cap ign m1 h1
    rcases hm1 with ⟨hi, hj⟩ | ⟨hi, hj⟩
    · rw [← hi, ← hj]
      exact hne
    · rw [← hi, ← hj]
      exact hne.symm
  have hAmem : A ∈ (allMatched (fuzzyMatches df cols weights threshold cap ign)).filter
      (fun x => dsuOfMatches (fuzzyMatches df cols weights threshold cap ign) x =
        dsuOfMatches (fuzzyMatches df cols weights threshold cap ign) A) :=
    List.mem_filter.mpr ⟨hAm, decide_eq_true rfl⟩
  have hBmem : B ∈ (allMatched (fuzzyMatches df cols weights threshold cap ign)).filter
      (fun x => dsuOfMatches (fuzzyMatches df cols weights threshold cap ign) x =
        dsuOfMatches (fuzzyMatches df cols weights threshold cap ign) A) :=
    List.mem_filter.mpr ⟨hBm, decide_eq_true hAB.symm⟩
  have hCmem : C ∈ (allMatched (fuzzyMatches df cols weights threshold cap ign)).filter
      (fun x => dsuOfMatches (fuzzyMatches df cols weights threshold cap ign) x =
        dsuOfMatches (fuzzyMatches df cols weights threshold cap ign) A) :=
    List.mem_filter.mpr ⟨hCm, decide_eq_true (hBC.symm.trans hAB.symm)⟩
  have hlen : 2 ≤ ((allMatched (fuzzyMatches df cols weights threshold cap ign)).filter
      (fun x => dsuOfMatches (fuzzyMatches df cols weights threshold cap ign) x =
        dsuOfMatches (fuzzyMatches df cols weights threshold cap ign) A)).length :=
    two_le_length_of_mem_ne hAmem hBmem hABne
  exact ⟨_, mem_fuzzyGroups_of df cols weights threshold cap ign
    (dsuOfMatches (fuzzyMatches df cols weights threshold cap ign) A)
    ((mem_firstDedup _ _).mpr (List.mem_map_of_mem _ hAm))
    (by omega), hAmem, hBmem, hCmem⟩

set_option maxRecDepth 40000 in
/-- Witness for C5 at a concrete input: three rows "aaaaa", "aaaab", "aaabb"
at threshold 70, where rows 0~1 and 1~2 score 736/9 (about 81.8) but rows
0~2 only 63; all three end in one group. -/
theorem c5_witness :
    ∃ g ∈ (detectFuzzyDuplicates ⟨["Name"], [["aaaaa"], ["aaaab"], ["aaabb"]]⟩
        ["Name"] 70 (some [1]) 20000 true).groups,
      0 ∈ g.1 ∧ 1 ∈ g.1 ∧ 2 ∈ g.1 :=
  c5_theorem ⟨["Name"], [["aaaaa"], ["aaaab"], ["aaabb"]]⟩ ["Name"] 70 [1] 20000 true
    (by decide) (by decide) 0 1 2 ⟨0, 1, 736 / 9⟩ ⟨1, 2, 736 / 9⟩ (by decide) (by decide)
    (Or.inl ⟨rfl, rfl⟩) (Or.inl ⟨rfl, rfl⟩)

/-- Claim C7 (confirmed): any block whose pair count n·(n−1)/2 exceeds the cap
contributes no compared pairs and no duplicate groups — no accepted pair
endpoint carries one of its rows and none of its rows appears in any group —
and the run completes normally with the non-fatal skipped-blocks warning in
the returned warnings list.  A 250-row block with pair cap 1000 is the
witness. -/
theorem c7_theorem (df : Df) (cols : List String) (threshold : ℚ) (weights : List ℚ)
    (cap : ℕ) (ign : Bool) (b : String × List (ℕ × List String))
    (hcols : cols ≠ []) (hb : b ∈ fuzzyBlocks df cols ign) (hn : 2 ≤ b.2.length)
    (hcap : cap < blockPairCount b.2.length) :
    (∀ m ∈ fuzzyMatches df cols weights threshold cap ign,
      ∀ r, (m.i, r) ∉ b.2 ∧ (m.j, r) ∉ b.2) ∧
    (∀ ir ∈ b.2, ∀ g ∈ fuzzyGroups df cols weights threshold cap ign, ir.1 ∉ g.1) ∧
    Warning.fuzzyBlocksSkipped (skippedBlocksCount df cols ign cap) cap ∈
      (detectFuzzyDuplicates df cols threshold (some weights) cap ign).warnings := by
  have hblock : ∀ (x : ℕ) (r : List String), (x, r) ∈ b.2 →
      ∀ m ∈ fuzzyMatches df cols weights threshold cap ign, m.i ≠ x ∧ m.j ≠ x := by
    intro x r hxr m hm
    constructor
    · intro hix
      obtain ⟨b', hb', hcap', r', hr'⟩ :=
        fuzzyMatches_endpoint_block df cols weights threshold cap ign m hm x (Or.inl hix)
      have hbb : b = b' := block_unique df cols ign b b' hb hb' x r r' hxr hr'
      rw [← hbb] at hcap'
      omega
    · intro hjx
      obtain ⟨b', hb', hcap', r', hr'⟩ :=
        fuzzyMatches_endpoint_block df cols weights threshold cap ign m hm x (Or.inr hjx)
      have hbb : b = b' := block_unique df cols ign b b' hb hb' x r r' hxr hr'
      rw [← hbb] at hcap'
      omega
  refine ⟨?_, ?_, ?_⟩
  · intro m hm r
    constructor
    · intro hmem
      exact (hblock m.i r hmem m hm).1 rfl
    · intro hmem
      exact (hblock m.j r hmem m hm).2 rfl
  · intro ir hir g hg higg
    obtain ⟨m, hm, hend⟩ :=
      groups_mem_matched df cols weights threshold cap ign g hg ir.1 higg
    have hirb : (ir.1, ir.2) ∈ b.2 := hir
    rcases hend with h | h
    · exact (hblock ir.1 ir.2 hirb m hm).1 h
    · exact (hblock ir.1 ir.2 hirb m hm).2 h
  · have hskip : skippedBlocksCount df cols ign cap ≠ 0 := by
      unfold skippedBlocksCount
      have hmem : b ∈ (fuzzyBlocks df cols ign).filter (fun b' =>
          decide (2 ≤ b'.2.length) && decide (cap < blockPairCount b'.2.length)) :=
        List.mem_filter.mpr ⟨hb, by rw [decide_eq_true hn, decide_eq_true hcap]; rfl⟩
      have := List.length_pos_of_mem hmem
      omega
    unfold detectFuzzyDuplicates
    rw [if_neg hcols]
    dsimp only
    rw [if_pos hskip]
    exact List.mem_append.mpr (Or.inr (List.mem_singleton.mpr rfl))

/-- The dataset of Scenario D: 250 rows sharing the block key "aa". -/
def c7df : Df := ⟨["Name"], (List.range 250).map (fun i => ["aa" ++ toString i])⟩

/-- The single 250-row block of Scenario D (pair count 31125). -/
def c7blk : String × List (ℕ × List String) :=
  ("aa", (List.range 250).map (fun i => (i, ["aa" ++ toString i])))

set_option maxRecDepth 100000 in
/-- Witness for C7, Scenario D: the 250-row block with pair cap 1000 is in the
blocking, exceeds the cap (31125 pairs), the skipped-blocks warning (for one
skipped block) is returned, and the run yields zero groups. -/
theorem c7_witness :
    (c7blk ∈ fuzzyBlocks c7df ["Name"] true ∧ 2 ≤ c7blk.2.length ∧
      1000 < blockPairCount c7blk.2.length) ∧
    Warning.fuzzyBlocksSkipped (skippedBlocksCount c7df ["Name"] true 1000) 1000 ∈
      (detectFuzzyDuplicates c7df ["Name"] 85 (some [1]) 1000 true).warnings ∧
    skippedBlocksCount c7df ["Name"] true 1000 = 1 ∧
    (detectFuzzyDuplicates c7df ["Name"] 85 (some [1]) 1000 true).groups = [] :=
  ⟨⟨by decide, by decide, by decide⟩,
   (c7_theorem c7df ["Name"] 85 [1] 1000 true c7blk (by decide) (by decide) (by decide)
     (by decide)).2.2,
   by decide, by decide⟩

end DQ
